import Mathlib

/-!
Shallow embedding of `src/camera/scripts/diff_import.py` (the patch parsing
state machine and the patch location/application engine), together with
theorems settling the frozen claims about it.

Texts are modelled as `List Char`.  Python's `str.splitlines(keepends=True)`
is modelled with `'\n'` as the only line boundary; Python's whitespace set for
`str.strip()` is modelled by `Char.isWhitespace`.  Similarity ratios, which
difflib computes in floating point, are modelled exactly in `ℚ` (the ratio
`2*M/T` is a small rational, and the code's comparisons against the threshold
carry over verbatim).
-/

namespace DiffImport

abbrev Line := List Char

/-- Python `str.strip()`: drop whitespace from both ends. -/
def pyStrip (l : List Char) : List Char :=
  ((l.dropWhile Char.isWhitespace).reverse.dropWhile Char.isWhitespace).reverse

/-- Python `str.splitlines(keepends=True)`, with `'\n'` as the line boundary:
each piece keeps its trailing newline; a final unterminated piece is kept
as-is; the empty text yields no lines. -/
def splitLinesKE (l : List Char) : List Line :=
  match h : l.span (fun c => c ≠ '\n') with
  | (_, []) => if l = [] then [] else [l]
  | (a, _ :: rest) => (a ++ ['\n']) :: splitLinesKE rest
termination_by l.length
decreasing_by
  simp only [List.span_eq_take_drop, Prod.mk.injEq] at h
  have hl := List.takeWhile_append_dropWhile (p := fun c => decide (c ≠ '\n')) (l := l)
  rw [h.1, h.2] at hl
  have := congrArg List.length hl
  simp [List.length_append] at this
  omega

/-- `"".join(lines)` -/
def joinLines (ls : List Line) : List Char := ls.flatten

/-- One parsed patch block: `{'filename': ..., 'original': ..., 'new': ...}`
as yielded by `parse_diff_file` (the `original` and `new` line lists already
joined, as the code joins them at yield time). -/
structure PatchBlock where
  filename : List Char
  original : List Char
  new : List Char
deriving Repr, DecidableEq

/-- Parser states of `parse_diff_file`'s line state machine. -/
inductive PState
  | seekStart
  | expectOriginalOpen
  | inOriginal
  | expectSeparator
  | expectNewOpen
  | inNew
  | expectEnd
deriving Repr, DecidableEq

/-- A diagnostic printed to stderr by `parse_diff_file`: either a malformed
block message (with the 1-based line number that triggered it) or the final
unexpected end-of-input message. -/
inductive Diag
  | malformed (lineNum : Nat)
  | unexpectedEOF
deriving Repr, DecidableEq

/-- The parser's loop state: current state machine state, the block under
construction (filename and collected original/new lines, kept with their line
endings exactly as the code appends `line` verbatim), the blocks yielded so
far, the diagnostics emitted so far, and the running line counter. -/
structure ParserSt where
  state : PState
  filename : List Char
  origLines : List Line
  newLines : List Line
  blocks : List PatchBlock
  diags : List Diag
  lineNum : Nat
deriving Repr

def initParserSt : ParserSt :=
  ⟨.seekStart, [], [], [], [], [], 0⟩

/-- One iteration of the `for line in lines` loop of `parse_diff_file`. -/
def parseStep (st : ParserSt) (line : Line) : ParserSt :=
  let ln := st.lineNum + 1
  let s := pyStrip line
  match st.state with
  | .seekStart =>
      if s.take 6 = ("#>>>>>".data) then
        { st with state := .expectOriginalOpen, filename := pyStrip (s.drop 6),
                  origLines := [], newLines := [], lineNum := ln }
      else
        { st with lineNum := ln }
  | .expectOriginalOpen =>
      if s = ("```".data) then
        { st with state := .inOriginal, lineNum := ln }
      else if s ≠ [] then
        { st with state := .seekStart, diags := st.diags ++ [.malformed ln], lineNum := ln }
      else
        { st with lineNum := ln }
  | .inOriginal =>
      if s = ("#=====".data) then
        { st with state := .inNew, lineNum := ln }
      else if s = ("```".data) then
        { st with state := .expectSeparator, lineNum := ln }
      else
        { st with origLines := st.origLines ++ [line], lineNum := ln }
  | .expectSeparator =>
      if s = ("#=====".data) then
        { st with state := .expectNewOpen, lineNum := ln }
      else if s = ("#<<<<< end".data) then
        -- Format 3: the content parsed as 'original' is actually 'new'.
        { st with state := .seekStart,
                  blocks := st.blocks ++
                    [⟨st.filename, [], joinLines st.origLines⟩],
                  origLines := [], newLines := [], lineNum := ln }
      else if s ≠ [] then
        { st with state := .seekStart, diags := st.diags ++ [.malformed ln], lineNum := ln }
      else
        { st with lineNum := ln }
  | .expectNewOpen =>
      if s = ("```".data) then
        { st with state := .inNew, lineNum := ln }
      else if s ≠ [] then
        { st with state := .seekStart, diags := st.diags ++ [.malformed ln], lineNum := ln }
      else
        { st with lineNum := ln }
  | .inNew =>
      if s = ("```".data) then
        { st with state := .expectEnd, lineNum := ln }
      else
        { st with newLines := st.newLines ++ [line], lineNum := ln }
  | .expectEnd =>
      if s = ("#<<<<< end".data) then
        { st with state := .seekStart,
                  blocks := st.blocks ++
                    [⟨st.filename, joinLines st.origLines, joinLines st.newLines⟩],
                  origLines := [], newLines := [], lineNum := ln }
      else if s ≠ [] then
        { st with state := .seekStart, diags := st.diags ++ [.malformed ln], lineNum := ln }
      else
        { st with lineNum := ln }

/-- `parse_diff_file` over an already-split line list. -/
def parseLines (lines : List Line) : List PatchBlock × List Diag :=
  let st := lines.foldl parseStep initParserSt
  (st.blocks, st.diags ++ if st.state = .seekStart then [] else [.unexpectedEOF])

/-- `parse_diff_file(diff_content)`: split into lines (keepends) and run the
state machine, collecting the yielded blocks and the stderr diagnostics. -/
def parseDiffFile (text : List Char) : List PatchBlock × List Diag :=
  parseLines (splitLinesKE text)

/-! ### RegionLocator: `find_patch_location` and its difflib model

`difflib.SequenceMatcher(a=chunk, b=original_text, autojunk=False)` is used
with no junk predicate, so the junk machinery is inert; the model below
follows CPython's `find_longest_match` dynamic program, the queue-based
`get_matching_blocks` (expressed as the equivalent in-order recursion, with
fuel for termination), the sort-and-merge postpass, `get_opcodes`, and
`ratio`.  With no junk, difflib's "extend over junk" postpass loops in
`find_longest_match` never fire and are omitted. -/

/-- Python `content.find(sub, start)` for nonempty `sub`: the least index
`p ≥ start` at which `sub` occurs in `content`, if any. -/
def pyFind (content sub : List Char) (start : Nat) : Option Nat :=
  ((List.range (content.length + 1)).filter
    (fun p => start ≤ p ∧ (content.drop p).take sub.length = sub)).head?

/-- Association-list lookup with default 0, modelling `j2len.get(j-1, 0)`. -/
def lookupD (l : List (Nat × Nat)) (k : Nat) : Nat :=
  match l.find? (fun p => p.1 = k) with
  | some p => p.2
  | none => 0

/-- One row (`for i in range(alo, ahi)` body) of difflib's
`find_longest_match` dynamic program: `st` is `(j2len, (besti, bestj,
bestsize))` from the previous row; the returned state holds `newj2len` and
the updated best.  Inner iteration is over the ascending positions `j ∈
[blo, bhi)` with `b[j] == a[i]` (what `b2j[a[i]]` filtered to the range
yields), and the update is taken on strict improvement `k > bestsize`. -/
def flmRow (a b : List Char) (blo bhi : Nat) (i : Nat)
    (st : List (Nat × Nat) × (Nat × Nat × Nat)) :
    List (Nat × Nat) × (Nat × Nat × Nat) :=
  let js := (List.range' blo (bhi - blo)).filter (fun j => b.get? j = a.get? i)
  js.foldl
    (fun p j =>
      let k := (if j = 0 then 0 else lookupD st.1 (j - 1)) + 1
      let best := if p.2.2.2 < k then (i + 1 - k, j + 1 - k, k) else p.2
      ((j, k) :: p.1, best))
    ([], st.2)

/-- difflib `SequenceMatcher.find_longest_match(alo, ahi, blo, bhi)` with no
junk: returns `(besti, bestj, bestsize)`, initialized to `(alo, blo, 0)`. -/
def findLongestMatch (a b : List Char) (alo ahi blo bhi : Nat) : Nat × Nat × Nat :=
  ((List.range' alo (ahi - alo)).foldl
    (fun st i => flmRow a b blo bhi i st) ([], (alo, blo, 0))).2

/-- The queue-based block collection of `get_matching_blocks`, as the
equivalent in-order recursion (Python's guards `alo < i and blo < j` /
`i+k < ahi and j+k < bhi` are subsumed by the `k = 0` base case on empty
sub-ranges).  `fuel` only bounds the recursion depth; any fuel at least the
length of `a` plus 1 is sufficient. -/
def matchingBlocksAux (a b : List Char) :
    Nat → Nat → Nat → Nat → Nat → List (Nat × Nat × Nat)
  | 0, _, _, _, _ => []
  | fuel + 1, alo, ahi, blo, bhi =>
    let m := findLongestMatch a b alo ahi blo bhi
    if m.2.2 = 0 then []
    else
      matchingBlocksAux a b fuel alo m.1 blo m.2.1 ++
        m :: matchingBlocksAux a b fuel (m.1 + m.2.2) ahi (m.2.1 + m.2.2) bhi

/-- Python's stable `list.sort` / `sorted`, modelled as stable insertion
sort: an element is inserted after every element strictly smaller under
`lt`, and before the first element not strictly smaller, preserving the
original relative order of equal keys. -/
def stableInsert (lt : α → α → Bool) (x : α) : List α → List α
  | [] => [x]
  | y :: ys => if lt y x then y :: stableInsert lt x ys else x :: y :: ys

def stableSort (lt : α → α → Bool) : List α → List α
  | [] => []
  | x :: xs => stableInsert lt x (stableSort lt xs)

/-- One coalescing step of the merge postpass of `get_matching_blocks`: the
state is `(non_adjacent, i1, j1, k1)`; an adjacent block is absorbed into the
running block, otherwise the running block is flushed (when nonempty). -/
def mergeStep (st : List (Nat × Nat × Nat) × Nat × Nat × Nat) (x : Nat × Nat × Nat) :
    List (Nat × Nat × Nat) × Nat × Nat × Nat :=
  let (acc, i1, j1, k1) := st
  let (i2, j2, k2) := x
  if i1 + k1 = i2 ∧ j1 + k1 = j2 then (acc, i1, j1, k1 + k2)
  else if k1 ≠ 0 then (acc ++ [(i1, j1, k1)], i2, j2, k2)
  else (acc, i2, j2, k2)

/-- The merge postpass of `get_matching_blocks`: coalesce adjacent blocks,
keeping only nonzero-size ones, then append the `(la, lb, 0)` sentinel. -/
def mergeBlocks (la lb : Nat) (blocks : List (Nat × Nat × Nat)) :
    List (Nat × Nat × Nat) :=
  let f := blocks.foldl mergeStep ([], 0, 0, 0)
  (f.1 ++ if f.2.2.2 ≠ 0 then [(f.2.1, f.2.2.1, f.2.2.2)] else []) ++ [(la, lb, 0)]

/-- Python's lexicographic order on the `(i, j, k)` triples, as used by
`matching_blocks.sort()`. -/
def tripleLt (x y : Nat × Nat × Nat) : Bool :=
  x.1 < y.1 ∨ (x.1 = y.1 ∧ (x.2.1 < y.2.1 ∨ (x.2.1 = y.2.1 ∧ x.2.2 < y.2.2)))

/-- difflib `get_matching_blocks()` (no junk): collect, sort, merge,
sentinel. -/
def getMatchingBlocks (a b : List Char) : List (Nat × Nat × Nat) :=
  mergeBlocks a.length b.length
    (stableSort tripleLt
      (matchingBlocksAux a b (a.length + b.length + 1) 0 a.length 0 b.length))

inductive Tag
  | replace
  | delete
  | insert
  | equal
deriving Repr, DecidableEq

/-- One iteration of the `get_opcodes()` loop over matching blocks: the
state is `(answer, i, j)`; a replace/delete/insert opcode is emitted for the
gap `[i, ai) × [j, bj)` and an equal opcode for the block itself when its
size is nonzero. -/
def opcodeStep (st : List (Tag × Nat × Nat × Nat × Nat) × Nat × Nat)
    (blk : Nat × Nat × Nat) : List (Tag × Nat × Nat × Nat × Nat) × Nat × Nat :=
  let (ans, i, j) := st
  let (ai, bj, size) := blk
  let ans :=
    if i < ai ∧ j < bj then ans ++ [(Tag.replace, i, ai, j, bj)]
    else if i < ai then ans ++ [(Tag.delete, i, ai, j, bj)]
    else if j < bj then ans ++ [(Tag.insert, i, ai, j, bj)]
    else ans
  let ans := if size ≠ 0 then ans ++ [(Tag.equal, ai, ai + size, bj, bj + size)] else ans
  (ans, ai + size, bj + size)

/-- difflib `get_opcodes()`: walk the matching blocks, tiling `[0, la) ×
[0, lb)` with replace/delete/insert opcodes between blocks and equal opcodes
on blocks. -/
def getOpcodes (a b : List Char) : List (Tag × Nat × Nat × Nat × Nat) :=
  ((getMatchingBlocks a b).foldl opcodeStep ([], 0, 0)).1

/-- Invariant of the `get_opcodes` fold state `(answer, i, j)`: either
nothing has been emitted and the walk is still at the origin, or the first
opcode starts at position 0 of `a` and the last opcode ends at a positive
position of `a`. -/
def OpInv (st : List (Tag × Nat × Nat × Nat × Nat) × Nat × Nat) : Prop :=
  (st.1 = [] ∧ st.2.1 = 0 ∧ st.2.2 = 0) ∨
  (∃ o₁ o₂, st.1.head? = some o₁ ∧ o₁.2.1 = 0 ∧
    st.1.getLast? = some o₂ ∧ 0 < o₂.2.2.1)

/-- difflib `ratio()`: `2*M/T` with `M` the total size of matching blocks
and `T = len(a) + len(b)`; `1` when both are empty. -/
def smRatio (a b : List Char) : ℚ :=
  let m := ((getMatchingBlocks a b).map (fun x => x.2.2)).sum
  if a.length + b.length = 0 then 1
  else (2 * m : ℚ) / ((a.length + b.length : Nat) : ℚ)

/-- `chunk_size = int(len(original_text) * 1.5)` (exact in floats for any
realistic length, hence `⌊3n/2⌋`). -/
def chunkSize (orig : List Char) : Nat := 3 * orig.length / 2

/-- `step_size = max(1, int(chunk_size / 3))` (the float division
`chunk_size / 3` truncates to `chunk_size // 3` for any realistic size). -/
def stepSize (c : Nat) : Nat := max 1 (c / 3)

/-- The window start indices `range(0, len(file_content) - chunk_size + 1,
step_size)` of the fuzzy loop. -/
def windowStarts (contentLen c s : Nat) : List Nat :=
  let n := contentLen + 1 - c
  List.range' 0 ((n + s - 1) / s) s

/-- One iteration of the fuzzy sliding-window loop: compute the window
`content[i : i + chunk_size]` and its ratio against the original; on strict
improvement over `best_ratio`, record the ratio and the span
`i + opcodes[0][1]` to `i + opcodes[-1][2]` (0 when there are no opcodes). -/
def fuzzyStep (content orig : List Char) (best : ℚ × Int × Int) (i : Nat) :
    ℚ × Int × Int :=
  let chunk := (content.drop i).take (chunkSize orig)
  let r := smRatio chunk orig
  if best.1 < r then
    let ops := getOpcodes chunk orig
    let s := match ops.head? with
      | some o => o.2.1
      | none => 0
    let e := match ops.getLast? with
      | some o => o.2.2.1
      | none => 0
    (r, (i + s : Nat), (i + e : Nat))
  else best

/-- The fuzzy sliding-window loop of `find_patch_location`: fold `fuzzyStep`
over the window starts, with `(best_ratio, best_match_start,
best_match_end)` initialized to `(-1.0, -1, -1)`. -/
def fuzzyBest (content orig : List Char) : ℚ × Int × Int :=
  (windowStarts content.length (chunkSize orig) (stepSize (chunkSize orig))).foldl
    (fuzzyStep content orig) (-1, -1, -1)

/-- The match method in the returned tuple: `"verbatim"` or
`f"fuzzy ({best_ratio:.2f})"` (the ratio kept exactly rather than
formatted). -/
inductive Method
  | verbatim
  | fuzzy (ratio : ℚ)
deriving Repr, DecidableEq

/-- The `reason` component of `find_patch_location`'s result (and the other
reason strings recorded by `apply_collated_patches`), as structured values
carrying the data the strings interpolate. -/
inductive Reason
  | success
  | emptyOriginal
  | ambiguousVerbatim
  | belowThreshold (best threshold : ℚ)
  | fileNotFoundForModification
  | replacementMix
  | overlapsWith (s e : Int)
  | ioError
deriving Repr, DecidableEq

/-- `find_patch_location(file_content, original_text, threshold)`: returns
`(some (start, end, method), reason)` on success and `(none, reason)` on
failure, mirroring the 4-tuple of the source. -/
def findPatchLocation (content orig : List Char) (threshold : ℚ) :
    Option (Int × Int × Method) × Reason :=
  if pyStrip orig = [] then (none, .emptyOriginal)
  else
    match pyFind content orig 0 with
    | some s =>
        match pyFind content orig (s + 1) with
        | none => (some ((s : Nat), ((s + orig.length : Nat) : Nat), .verbatim), .success)
        | some _ => (none, .ambiguousVerbatim)
    | none =>
        if threshold ≤ (fuzzyBest content orig).1 then
          (some ((fuzzyBest content orig).2.1, (fuzzyBest content orig).2.2,
            .fuzzy (fuzzyBest content orig).1), .success)
        else (none, .belowThreshold (fuzzyBest content orig).1 threshold)

/-! ### PatchApplier: `apply_collated_patches`

The file system interaction is made explicit: `FsState` carries whether the
target exists, the outcome of reading it (`readOk`/`content`), whether a
write/create would succeed (`writeOk`), and the `dry_run` flag.  The
function returns the per-patch result records in input order together with
the content written to the file (`none` when no write happens: dry run,
failure, abort, or a failed write). -/

inductive Status
  | pending
  | applied_creation
  | applied_replacement
  | applied_modification
  | failed_to_locate
  | failed_ambiguous
  | skipped_due_to_conflict
  | failed_to_read
  | failed_to_create
  | failed_to_write
deriving Repr, DecidableEq

structure FsState where
  fileExists : Bool
  readOk : Bool
  content : List Char
  writeOk : Bool
  dryRun : Bool
deriving Repr

/-- One entry of `patch_results`: the record `{'status': ..., 'patch': p}`,
extended in place with `start`, `end`, `method`, `reason` as the code
assigns them. -/
structure PatchResult where
  status : Status
  patch : PatchBlock
  startIdx : Option Int := none
  endIdx : Option Int := none
  method : Option Method := none
  reason : Option Reason := none
deriving Repr, DecidableEq

/-- `is_creation_or_replacement_patch`: `not p['original'].strip()`. -/
def isCreationPatch (p : PatchBlock) : Bool := pyStrip p.original = []

/-- Python slice index normalization for `content[:a]` / `content[a:]`. -/
def pyIdx (len : Nat) (i : Int) : Nat :=
  if i < 0 then (len + i).toNat else min i.toNat len

def pySliceTo (l : List Char) (a : Int) : List Char := l.take (pyIdx l.length a)

def pySliceFrom (l : List Char) (a : Int) : List Char := l.drop (pyIdx l.length a)

/-- The location attempt for one patch of the modification path: the result
record either gains `start`/`end`/`method` (status still `pending`) or
becomes `failed_to_locate` with the locator's reason. -/
def locateOne (content : List Char) (threshold : ℚ) (p : PatchBlock) : PatchResult :=
  match findPatchLocation content p.original threshold with
  | (some (s, e, m), _) =>
      { status := .pending, patch := p, startIdx := some s, endIdx := some e,
        method := some m }
  | (none, r) =>
      { status := .failed_to_locate, patch := p, reason := some r }

/-- The per-patch location pass over the whole batch. -/
def locateAll (content : List Char) (threshold : ℚ) (patches : List PatchBlock) :
    List PatchResult :=
  patches.map (locateOne content threshold)

/-- `located_patches`, keeping each record's index in `patch_results` so the
in-place mutations can be replayed functionally. -/
def locatedOf (results : List PatchResult) : List (Nat × PatchResult) :=
  results.enum.filter (fun x => x.2.startIdx.isSome)

def startOf (x : Nat × PatchResult) : Int := x.2.startIdx.getD 0

def endOf (x : Nat × PatchResult) : Int := x.2.endIdx.getD 0

/-- The adjacent-pair conflict scan over the start-sorted located list: for
each adjacent pair with `prev.end > next.start`, both indices are marked
(`has_conflict` is `conflictMarks sorted ≠ []`). -/
def conflictMarks (sorted : List (Nat × PatchResult)) : List Nat :=
  (sorted.zip sorted.tail).foldl
    (fun acc pr =>
      if endOf pr.1 > startOf pr.2 then acc ++ [pr.1.1, pr.2.1] else acc)
    []

/-- Replace the `n`-th record by `f` of itself (an in-place dict mutation). -/
def modifyAt (l : List PatchResult) (n : Nat) (f : PatchResult → PatchResult) :
    List PatchResult :=
  l.enum.map (fun x => if x.1 = n then f x.2 else x.2)

/-- Replay of the conflict loop's in-place mutations on `patch_results`:
each adjacent overlapping pair gets `skipped_due_to_conflict` and an
"Overlaps with patch at [s:e]" reason naming the other member's span. -/
def markConflicts (sorted : List (Nat × PatchResult)) (results : List PatchResult) :
    List PatchResult :=
  (sorted.zip sorted.tail).foldl
    (fun res pr =>
      if endOf pr.1 > startOf pr.2 then
        modifyAt
          (modifyAt res pr.1.1 (fun r =>
            { r with status := .skipped_due_to_conflict,
                     reason := some (.overlapsWith (startOf pr.2) (endOf pr.2)) }))
          pr.2.1 (fun r =>
            { r with status := .skipped_due_to_conflict,
                     reason := some (.overlapsWith (startOf pr.1) (endOf pr.1)) })
      else res)
    results

/-- The descending-start application fold: `modified_content =
modified_content[:start] + new_text + modified_content[end:]` for each
located patch, rightmost first. -/
def applyDescending (content : List Char) (descSorted : List (Nat × PatchResult)) :
    List Char :=
  descSorted.foldl
    (fun acc x => pySliceTo acc (startOf x) ++ x.2.patch.new ++ pySliceFrom acc (endOf x))
    content

/-- `apply_collated_patches(filename, patches, threshold, dry_run)`.  Returns
`(patch_results, written)` where `written = some c` exactly when the code
performs a successful `write_text` with content `c`. -/
def applyCollatedPatches (fs : FsState) (patches : List PatchBlock) (threshold : ℚ) :
    List PatchResult × Option (List Char) :=
  let results : List PatchResult :=
    patches.map (fun p => { status := .pending, patch := p })
  if ¬ fs.fileExists then
    -- File Creation Logic
    if patches.all isCreationPatch then
      let full := (patches.map PatchBlock.new).flatten
      if fs.dryRun then
        (results.map (fun r => { r with status := .applied_creation }), none)
      else if fs.writeOk then
        (results.map (fun r => { r with status := .applied_creation }), some full)
      else
        (results.map (fun r => { r with status := .failed_to_create, reason := some .ioError }),
          none)
    else
      (results.map (fun r =>
        { r with status := .failed_to_locate, reason := some .fileNotFoundForModification }),
        none)
  else if ¬ fs.readOk then
    (results.map (fun r => { r with status := .failed_to_read, reason := some .ioError }), none)
  else if patches.any isCreationPatch then
    -- Full file replacement scenario on an existing file.
    if 1 < results.length then
      (results.map (fun r => { r with status := .failed_ambiguous, reason := some .replacementMix }),
        none)
    else
      let newContent := ((patches.filter isCreationPatch).map PatchBlock.new).flatten
      if fs.dryRun then
        (results.map (fun r => { r with status := .applied_replacement }), none)
      else if fs.writeOk then
        (results.map (fun r => { r with status := .applied_replacement }), some newContent)
      else
        (results.map (fun r => { r with status := .failed_to_write, reason := some .ioError }),
          none)
  else
    -- Standard File Modification Logic
    let results := locateAll fs.content threshold patches
    let located := locatedOf results
    if located.isEmpty then (results, none)
    else
      let sorted := stableSort (fun x y => decide (startOf x < startOf y)) located
      if conflictMarks sorted ≠ [] then
        (markConflicts sorted results, none)
      else
        let descSorted := stableSort (fun x y => decide (startOf y < startOf x)) located
        let modified := applyDescending fs.content descSorted
        let results := results.map (fun r =>
          if r.startIdx.isSome then { r with status := .applied_modification } else r)
        if fs.dryRun then (results, none)
        else if fs.writeOk then (results, some modified)
        else
          (results.map (fun r =>
            if r.startIdx.isSome then
              { r with status := .failed_to_write, reason := some .ioError }
            else r), none)

/-- The record `locateAll` produces for a successfully located patch. -/
def locatedRecord (x : PatchBlock × Nat × Nat × Method) : PatchResult :=
  { status := .pending, patch := x.1, startIdx := some (x.2.1 : Int),
    endIdx := some (x.2.2.1 : Int), method := some x.2.2.2 }

/-- Ascending, pairwise non-overlapping located spans within a content of
length `len`, starting at or after `prev`: each span `[s, e)` satisfies
`prev ≤ s < e ≤ len` and the next span starts at or after `e`. -/
def SpansChain (len : Nat) : Nat → List (PatchBlock × Nat × Nat × Method) → Prop
  | _, [] => True
  | prev, x :: rest =>
      prev ≤ x.2.1 ∧ x.2.1 < x.2.2.1 ∧ x.2.2.1 ≤ len ∧ SpansChain len x.2.2.1 rest

/-- Modelled from the spec: "the concatenation of the unchanged segments of
the original content interleaved with each patch's new text in ascending
span order" — the independent-substitution result for ascending spans,
starting from offset `prev`. -/
def specInterleave (content : List Char) (prev : Nat) :
    List (Nat × Nat × List Char) → List Char
  | [] => content.drop prev
  | (s, e, n) :: rest => (content.drop prev).take (s - prev) ++ n ++
      specInterleave content e rest

/-- The spec's closed failure taxonomy (§4.4). -/
def closedStatuses : List Status :=
  [.applied_creation, .applied_replacement, .applied_modification,
    .failed_to_locate, .failed_ambiguous, .skipped_due_to_conflict,
    .failed_to_read, .failed_to_create, .failed_to_write]

/-- The list of all positions at which `orig` occurs verbatim in `content`
(`content[p : p + len(orig)] == orig`). -/
def occurrences (content orig : List Char) : List Nat :=
  (List.range (content.length + 1)).filter
    (fun p => (content.drop p).take orig.length = orig)

/-- A line as produced by `splitlines(keepends=True)` that is not the final
unterminated line: nonempty, no interior newline, terminated by `'\n'`, and
(for the parser's original-section invariant) not stripping to a fence or
separator marker. -/
def GoodLineP (l : Line) : Prop :=
  pyStrip l ≠ ("```".data) ∧ pyStrip l ≠ ("#=====".data) ∧
    '\n' ∉ l.dropLast ∧ l.getLast? = some '\n'

/-- No line of the block's original text strips to a fence or separator
marker. -/
def GoodBlockP (b : PatchBlock) : Prop :=
  ∀ l ∈ splitLinesKE b.original,
    pyStrip l ≠ ("```".data) ∧ pyStrip l ≠ ("#=====".data)

/-- The shape invariant of `splitlines(keepends=True)` output: every line is
nonempty with no interior newline, and every line but the last ends in
`'\n'`. -/
def ValidLines : List Line → Prop
  | [] => True
  | [l] => '\n' ∉ l.dropLast ∧ l ≠ []
  | l :: rest => '\n' ∉ l.dropLast ∧ l ≠ [] ∧ l.getLast? = some '\n' ∧ ValidLines rest

/-! ## Theorems -/

/-! ### C9: content shorter than the fuzzy window -/

lemma stepSize_pos (c : Nat) : 0 < stepSize c := by
  simp [stepSize]

lemma windowStarts_eq_nil_of_short (len c s : Nat) (hs : 0 < s) (h : len < c) :
    windowStarts len c s = [] := by
  unfold windowStarts
  have hn : len + 1 - c = 0 := Nat.sub_eq_zero_of_le (by omega)
  have hd : (0 + s - 1) / s = 0 := Nat.div_eq_of_lt (by omega)
  simp only [hn, hd, List.range']

lemma fuzzyBest_of_no_window (content orig : List Char)
    (h : content.length < chunkSize orig) :
    fuzzyBest content orig = (-1, -1, -1) := by
  unfold fuzzyBest
  rw [windowStarts_eq_nil_of_short _ _ _ (stepSize_pos _) h, List.foldl_nil]

/-- C9: if a non-empty original has no verbatim occurrence and the content is
shorter than the fuzzy window `⌊1.5·len(original)⌋`, the sliding-window loop
examines zero windows and `find_patch_location` fails reporting a best score
of `-1.00`, for every threshold `≥ 0`. -/
theorem C9_short_content_no_windows (content orig : List Char) (threshold : ℚ)
    (h1 : pyStrip orig ≠ []) (h2 : pyFind content orig 0 = none)
    (h3 : content.length < chunkSize orig) (h4 : 0 ≤ threshold) :
    windowStarts content.length (chunkSize orig) (stepSize (chunkSize orig)) = [] ∧
    findPatchLocation content orig threshold = (none, .belowThreshold (-1) threshold) := by
  refine ⟨windowStarts_eq_nil_of_short _ _ _ (stepSize_pos _) h3, ?_⟩
  unfold findPatchLocation
  rw [if_neg h1, h2, fuzzyBest_of_no_window content orig h3]
  rw [if_neg (by intro hle; exact absurd (le_trans h4 hle) (by norm_num))]

/-- Witness for C9 at `content = "abcde"`, `original = "abcdef"`,
`threshold = 0` (window size 9 exceeds the content length 5). -/
theorem C9_short_content_no_windows_witness :
    (pyStrip ("abcdef".data) ≠ [] ∧ pyFind ("abcde".data) ("abcdef".data) 0 = none ∧
      ("abcde".data).length < chunkSize ("abcdef".data)) ∧
    findPatchLocation ("abcde".data) ("abcdef".data) 0 = (none, .belowThreshold (-1) 0) :=
  ⟨⟨by decide, by decide, by decide⟩,
    (C9_short_content_no_windows ("abcde".data) ("abcdef".data) 0
      (by decide) (by decide) (by decide) le_rfl).2⟩

/-! ### C7: threshold boundary of the fuzzy stage -/

/-- C7: once the fuzzy stage is reached (non-empty stripped original, no
verbatim occurrence), a best ratio exactly equal to the threshold is
accepted (the located span and the `fuzzy` method are returned), and a best
ratio strictly below the threshold is rejected with a reason carrying the
best score and the threshold. -/
theorem C7_threshold_boundary (content orig : List Char) (threshold : ℚ)
    (h1 : pyStrip orig ≠ []) (h2 : pyFind content orig 0 = none) :
    ((fuzzyBest content orig).1 = threshold →
      findPatchLocation content orig threshold =
        (some ((fuzzyBest content orig).2.1, (fuzzyBest content orig).2.2,
          .fuzzy (fuzzyBest content orig).1), .success)) ∧
    ((fuzzyBest content orig).1 < threshold →
      findPatchLocation content orig threshold =
        (none, .belowThreshold (fuzzyBest content orig).1 threshold)) := by
  unfold findPatchLocation
  rw [if_neg h1, h2]
  constructor
  · intro heq
    rw [if_pos (le_of_eq heq.symm)]
  · intro hlt
    rw [if_neg (not_le_of_lt hlt)]

/-! Concrete fuzzy-stage evaluation at `content = "ZZabcXdefZZ"`,
`original = "abcdef"`: window size 9, step 3, a single window at `i = 0`
whose ratio is `2·6/15 = 4/5`. -/

lemma gmb_ZZ : getMatchingBlocks ("ZZabcXdef".data) ("abcdef".data) =
    [(2, 0, 3), (6, 3, 3), (9, 6, 0)] := by decide

lemma smRatio_ZZ : smRatio ("ZZabcXdef".data) ("abcdef".data) = 4 / 5 := by
  have h : smRatio ("ZZabcXdef".data) ("abcdef".data) =
      2 * ((6 : Nat) : ℚ) / ((15 : Nat) : ℚ) := rfl
  rw [h]
  norm_num

lemma opcodes_ZZ : getOpcodes ("ZZabcXdef".data) ("abcdef".data) =
    [(Tag.delete, 0, 2, 0, 0), (Tag.equal, 2, 5, 0, 3),
      (Tag.delete, 5, 6, 3, 3), (Tag.equal, 6, 9, 3, 6)] := by decide

lemma fuzzyBest_ZZ : fuzzyBest ("ZZabcXdefZZ".data) ("abcdef".data) = (4 / 5, 0, 9) := by
  have h3 : windowStarts (("ZZabcXdefZZ".data).length) (chunkSize ("abcdef".data))
      (stepSize (chunkSize ("abcdef".data))) = [0] := by decide
  have hs : fuzzyStep ("ZZabcXdefZZ".data) ("abcdef".data) (-1, -1, -1) 0 =
      if (-1 : ℚ) < smRatio ("ZZabcXdef".data) ("abcdef".data) then
        (smRatio ("ZZabcXdef".data) ("abcdef".data), ((0 : Nat) : Int), ((9 : Nat) : Int))
      else (-1, -1, -1) := rfl
  unfold fuzzyBest
  rw [h3, List.foldl_cons, List.foldl_nil, hs, smRatio_ZZ,
    if_pos (by norm_num : (-1 : ℚ) < 4 / 5)]
  norm_num

/-- Witness for C7 at `content = "ZZabcXdefZZ"`, `original = "abcdef"`
(best ratio `4/5`): the threshold `4/5` (exact equality) is accepted, the
threshold `9/10` (strictly above) is rejected with the best score and the
threshold in the reason. -/
theorem C7_threshold_boundary_witness :
    (pyStrip ("abcdef".data) ≠ [] ∧ pyFind ("ZZabcXdefZZ".data) ("abcdef".data) 0 = none) ∧
    findPatchLocation ("ZZabcXdefZZ".data) ("abcdef".data) (4 / 5) =
      (some (0, 9, .fuzzy (4 / 5)), .success) ∧
    findPatchLocation ("ZZabcXdefZZ".data) ("abcdef".data) (9 / 10) =
      (none, .belowThreshold (4 / 5) (9 / 10)) := by
  refine ⟨⟨by decide, by decide⟩, ?_, ?_⟩
  · have h := (C7_threshold_boundary ("ZZabcXdefZZ".data) ("abcdef".data) (4 / 5)
      (by decide) (by decide)).1
    rw [fuzzyBest_ZZ] at h
    exact h rfl
  · have h := (C7_threshold_boundary ("ZZabcXdefZZ".data) ("abcdef".data) (9 / 10)
      (by decide) (by decide)).2
    rw [fuzzyBest_ZZ] at h
    exact h (by norm_num)

/-! ### C1: the fuzzy span is the whole window, not the alignment sub-range -/

/-- C1 (code bug evaluation): at `file_content = "ZZabcXdefZZ"`,
`original = "abcdef"`, `threshold = 1/2`, the fuzzy stage accepts the single
window at `i = 0` (window size `chunk_size = 9`) and returns the span
`[0, 9)` — exactly the whole window `[i, i + chunk_size)` — even though the
window's best alignment with the original covers only `[2, 9)` of the window
(matching blocks `(2,0,3)` and `(6,3,3)`): `get_opcodes()` always spans the
entire window, so `opcodes[0][1]` is `0` and `opcodes[-1][2]` is
`chunk_size`, and the claimed trimming never happens. -/
theorem C1_fuzzy_span_is_whole_window :
    findPatchLocation ("ZZabcXdefZZ".data) ("abcdef".data) (1 / 2) =
      (some (0, 9, .fuzzy (4 / 5)), .success) ∧
    chunkSize ("abcdef".data) = 9 ∧
    getMatchingBlocks (List.take (chunkSize ("abcdef".data)) ("ZZabcXdefZZ".data))
      ("abcdef".data) = [(2, 0, 3), (6, 3, 3), (9, 6, 0)] := by
  refine ⟨?_, by decide, by decide⟩
  unfold findPatchLocation
  rw [if_neg (by decide),
    show pyFind ("ZZabcXdefZZ".data) ("abcdef".data) 0 = none from by decide,
    fuzzyBest_ZZ]
  norm_num

/-! ### C8: creation path concatenates in batch order -/

/-- C8: for an absent file and a batch in which every patch has an empty (or
whitespace-only) original, `apply_collated_patches` (not in dry-run mode,
with a succeeding write) performs exactly one write whose content is the
concatenation of each patch's new content in batch order, and every patch
gets status `applied_creation`. -/
theorem C8_creation_concatenates (fs : FsState) (patches : List PatchBlock)
    (threshold : ℚ) (h1 : fs.fileExists = false)
    (h2 : ∀ p ∈ patches, isCreationPatch p) (h3 : fs.dryRun = false)
    (h4 : fs.writeOk = true) :
    applyCollatedPatches fs patches threshold =
      (patches.map (fun p => { status := .applied_creation, patch := p }),
        some ((patches.map PatchBlock.new).flatten)) := by
  unfold applyCollatedPatches
  rw [if_pos (by rw [h1]; simp)]
  rw [if_pos (by rw [List.all_eq_true]; exact h2)]
  rw [if_neg (by rw [h3]; simp)]
  rw [if_pos (by rw [h4])]
  rw [List.map_map]
  rfl

/-- Witness for C8: a single creation patch with content `"C"` on an absent
file writes exactly `"C"`. -/
theorem C8_creation_concatenates_witness :
    applyCollatedPatches ⟨false, true, [], true, false⟩
      [⟨("f.txt".data), [], ("C".data)⟩] 0 =
      ([{ status := .applied_creation, patch := ⟨("f.txt".data), [], ("C".data)⟩ }],
        some ("C".data)) := by
  rw [C8_creation_concatenates _ _ _ rfl (by decide) rfl rfl]
  rfl

/-! ### C6: unique verbatim occurrence -/

lemma pyFind_zero_eq (content orig : List Char) :
    pyFind content orig 0 = (occurrences content orig).head? := by
  unfold pyFind occurrences
  congr 1
  apply List.filter_congr
  intro a _
  simp

lemma pyFind_after_unique (content orig : List Char) (p : Nat)
    (h : occurrences content orig = [p]) :
    pyFind content orig (p + 1) = none := by
  unfold pyFind
  have hf : (List.range (content.length + 1)).filter
      (fun q => decide (p + 1 ≤ q ∧ (content.drop q).take orig.length = orig)) =
      (occurrences content orig).filter (fun q => decide (p + 1 ≤ q)) := by
    unfold occurrences
    rw [List.filter_filter]
    apply List.filter_congr
    intro a _
    rw [Bool.decide_and, Bool.and_comm]
  rw [hf, h]
  simp

/-- C6: if the (non-whitespace) original occurs exactly once in the content,
at position `p`, then `find_patch_location` returns the verbatim match with
span `[p, p + len(original))`, whose substring is exactly the original, for
every threshold (the fuzzy stage is never consulted). -/
theorem C6_unique_verbatim (content orig : List Char) (threshold : ℚ) (p : Nat)
    (h1 : pyStrip orig ≠ []) (h2 : occurrences content orig = [p]) :
    findPatchLocation content orig threshold =
      (some ((p : Int), ((p + orig.length : Nat) : Int), .verbatim), .success) ∧
    (content.drop p).take orig.length = orig := by
  have hp : (content.drop p).take orig.length = orig := by
    have hm : p ∈ occurrences content orig := by rw [h2]; exact List.mem_singleton.mpr rfl
    unfold occurrences at hm
    have := List.of_mem_filter hm
    simpa using this
  refine ⟨?_, hp⟩
  unfold findPatchLocation
  rw [if_neg h1, pyFind_zero_eq, h2]
  simp only [List.head?_cons]
  rw [pyFind_after_unique content orig p h2]

/-- Witness for C6 at the spec's end-to-end example: `original = "foo\n"`,
`content = "foo\nbar\n"`, unique occurrence at 0, span `[0, 4)`. -/
theorem C6_unique_verbatim_witness :
    (pyStrip ("foo\n".data) ≠ [] ∧ occurrences ("foo\nbar\n".data) ("foo\n".data) = [0]) ∧
    findPatchLocation ("foo\nbar\n".data) ("foo\n".data) (9 / 10) =
      (some (0, 4, .verbatim), .success) := by
  refine ⟨⟨by decide, by decide⟩, ?_⟩
  have h := (C6_unique_verbatim ("foo\nbar\n".data) ("foo\n".data) (9 / 10) 0
    (by decide) (by decide)).1
  simpa using h

/-! ### C2: the closed outcome set -/

/-- C2 counterexample: an existing file `"abcdefghij"` with three
modification patches, the first two locating to overlapping spans `[0, 4)`
and `[2, 6)` and the third to the disjoint span `[7, 10)`.  The conflict
aborts the batch and the third patch's outcome record keeps the initial
status `pending`, which is outside the closed set. -/
theorem C2_pending_escapes :
    ((applyCollatedPatches ⟨true, true, ("abcdefghij".data), true, false⟩
      [⟨("f".data), ("abcd".data), ("X".data)⟩,
        ⟨("f".data), ("cdef".data), ("Y".data)⟩,
        ⟨("f".data), ("hij".data), ("Z".data)⟩] 0).1.map (fun r => r.status)) =
      [.skipped_due_to_conflict, .skipped_due_to_conflict, .pending] ∧
    Status.pending ∉ closedStatuses := by decide

lemma map_patch_map_of_preserve (f : PatchResult → PatchResult)
    (hf : ∀ r, (f r).patch = r.patch) (l : List PatchResult) :
    (l.map f).map (fun r => r.patch) = l.map (fun r => r.patch) := by
  induction l with
  | nil => rfl
  | cons x xs ih => simp only [List.map_cons, hf x]; rw [ih]

lemma map_patch_modifyAt (l : List PatchResult) (n : Nat)
    (f : PatchResult → PatchResult) (hf : ∀ r, (f r).patch = r.patch) :
    (modifyAt l n f).map (fun r => r.patch) = l.map (fun r => r.patch) := by
  unfold modifyAt
  rw [List.map_map]
  have h : ∀ x : Nat × PatchResult,
      ((fun r => r.patch) ∘ fun x => if x.1 = n then f x.2 else x.2) x = x.2.patch := by
    intro x
    by_cases hx : x.1 = n <;> simp [hx, hf]
  rw [List.map_congr_left (fun a _ => h a)]
  have h2 : (fun x : Nat × PatchResult => x.2.patch) =
      ((fun r : PatchResult => r.patch) ∘ Prod.snd) := rfl
  rw [h2, ← List.map_map, List.enum_map_snd]

lemma mem_modifyAt (l : List PatchResult) (n : Nat) (f : PatchResult → PatchResult) :
    ∀ x ∈ modifyAt l n f, x ∈ l ∨ ∃ y ∈ l, x = f y := by
  unfold modifyAt
  intro x hx
  rcases List.mem_map.mp hx with ⟨⟨i, y⟩, hmem, heq⟩
  have hy : y ∈ l := by
    have := List.mem_enum_iff_get?.mp hmem
    exact List.get?_mem this
  by_cases hi : i = n
  · right
    exact ⟨y, hy, by rw [← heq]; simp [hi]⟩
  · left
    rw [← heq]
    simpa [hi] using hy

lemma patch_set_conflict (s e : Int) (r : PatchResult) :
    ({ r with status := .skipped_due_to_conflict,
              reason := some (.overlapsWith s e) } : PatchResult).patch = r.patch := rfl

lemma markConflicts_patches (pairs : List ((Nat × PatchResult) × Nat × PatchResult))
    (results : List PatchResult) :
    (pairs.foldl
      (fun res pr =>
        if endOf pr.1 > startOf pr.2 then
          modifyAt
            (modifyAt res pr.1.1 (fun r =>
              { r with status := .skipped_due_to_conflict,
                       reason := some (.overlapsWith (startOf pr.2) (endOf pr.2)) }))
            pr.2.1 (fun r =>
              { r with status := .skipped_due_to_conflict,
                       reason := some (.overlapsWith (startOf pr.1) (endOf pr.1)) })
        else res) results).map (fun r => r.patch) = results.map (fun r => r.patch) := by
  induction pairs generalizing results with
  | nil => rfl
  | cons pr ps ih =>
    rw [List.foldl_cons]
    by_cases hc : endOf pr.1 > startOf pr.2
    · rw [if_pos hc, ih, map_patch_modifyAt _ _ _ (patch_set_conflict _ _),
        map_patch_modifyAt _ _ _ (patch_set_conflict _ _)]
    · rw [if_neg hc, ih]

lemma markConflicts_status (pairs : List ((Nat × PatchResult) × Nat × PatchResult))
    (results : List PatchResult)
    (h : ∀ r ∈ results, r.status ∈ closedStatuses ∨ r.status = .pending) :
    ∀ r ∈ (pairs.foldl
      (fun res pr =>
        if endOf pr.1 > startOf pr.2 then
          modifyAt
            (modifyAt res pr.1.1 (fun r =>
              { r with status := .skipped_due_to_conflict,
                       reason := some (.overlapsWith (startOf pr.2) (endOf pr.2)) }))
            pr.2.1 (fun r =>
              { r with status := .skipped_due_to_conflict,
                       reason := some (.overlapsWith (startOf pr.1) (endOf pr.1)) })
        else res) results),
      r.status ∈ closedStatuses ∨ r.status = .pending := by
  induction pairs generalizing results with
  | nil => exact h
  | cons pr ps ih =>
    rw [List.foldl_cons]
    by_cases hc : endOf pr.1 > startOf pr.2
    · rw [if_pos hc]
      apply ih
      intro r hr
      rcases mem_modifyAt _ _ _ r hr with hin | ⟨y, _, hy⟩
      · rcases mem_modifyAt _ _ _ r hin with hin2 | ⟨y, hy2, hy⟩
        · exact h r hin2
        · left; rw [hy]; simp [closedStatuses]
      · left; rw [hy]; simp [closedStatuses]
    · rw [if_neg hc]
      exact ih results h

lemma locateOne_patch (content : List Char) (threshold : ℚ) (p : PatchBlock) :
    (locateOne content threshold p).patch = p := by
  unfold locateOne
  rcases h : findPatchLocation content p.original threshold with ⟨o, r⟩
  rcases o with _ | ⟨s, e, m⟩ <;> simp

lemma locateOne_status (content : List Char) (threshold : ℚ) (p : PatchBlock) :
    (locateOne content threshold p).status = .pending ∨
      (locateOne content threshold p).status = .failed_to_locate := by
  unfold locateOne
  rcases h : findPatchLocation content p.original threshold with ⟨o, r⟩
  rcases o with _ | ⟨s, e, m⟩ <;> simp

lemma locateAll_patches (content : List Char) (threshold : ℚ)
    (patches : List PatchBlock) :
    (locateAll content threshold patches).map (fun r => r.patch) = patches := by
  unfold locateAll
  rw [List.map_map]
  have h : ∀ p, ((fun r => r.patch) ∘ locateOne content threshold) p = p :=
    fun p => locateOne_patch content threshold p
  rw [List.map_congr_left (fun a _ => h a)]
  simp

lemma init_patches (patches : List PatchBlock) :
    (patches.map (fun p => ({ status := .pending, patch := p } : PatchResult))).map
      (fun r => r.patch) = patches := by
  induction patches with
  | nil => rfl
  | cons x xs ih => simp only [List.map_cons]; rw [ih]

lemma forall_status_map_pointwise {α : Type} (l : List α) (f : α → PatchResult)
    (h : ∀ r ∈ l, (f r).status ∈ closedStatuses ∨ (f r).status = .pending) :
    ∀ r ∈ l.map f, r.status ∈ closedStatuses ∨ r.status = .pending := by
  intro r hr
  rcases List.mem_map.mp hr with ⟨y, hy, hy2⟩
  rw [← hy2]
  exact h y hy

lemma map_self_eq (l : List PatchBlock) (F : PatchBlock → PatchBlock)
    (h : ∀ p, F p = p) : l.map F = l :=
  (List.map_congr_left (fun a _ => h a)).trans (List.map_id l)

lemma map_patchcomp_eq (L : List PatchResult) (f : PatchResult → PatchResult)
    (hf : ∀ r, (f r).patch = r.patch) :
    L.map ((fun r => r.patch) ∘ f) = L.map (fun r => r.patch) :=
  List.map_congr_left (fun a _ => hf a)

lemma locateAll_status_mem (content : List Char) (threshold : ℚ)
    (patches : List PatchBlock) :
    ∀ r ∈ locateAll content threshold patches,
      r.status ∈ closedStatuses ∨ r.status = .pending := by
  unfold locateAll
  apply forall_status_map_pointwise
  intro p _
  rcases locateOne_status content threshold p with h | h
  · right; exact h
  · left; rw [h]; simp [closedStatuses]

set_option maxHeartbeats 2000000 in
/-- C2, amended: every input patch receives exactly one outcome record, in
input order; its final status is drawn from the closed set *extended with
the initial status `pending`* (located, non-conflicting patches keep
`pending` when a conflict aborts the file's batch, as the counterexample
shows; in every other situation the status is in the closed set). -/
theorem C2_amended_outcome_set (fs : FsState) (patches : List PatchBlock)
    (threshold : ℚ) :
    ((applyCollatedPatches fs patches threshold).1.map (fun r => r.patch) = patches) ∧
    ∀ r ∈ (applyCollatedPatches fs patches threshold).1,
      r.status ∈ closedStatuses ∨ r.status = .pending := by
  by_cases hE : fs.fileExists
  · by_cases hR : fs.readOk
    · by_cases hA : patches.any isCreationPatch
      · by_cases hL : 1 < patches.length
        · constructor
          · simp [applyCollatedPatches, hE, hR, hA, hL]
            exact map_self_eq _ _ (fun p => rfl)
          · simp [applyCollatedPatches, hE, hR, hA, hL, closedStatuses]
        · by_cases hD : fs.dryRun
          · constructor
            · simp [applyCollatedPatches, hE, hR, hA, hL, hD]
              exact map_self_eq _ _ (fun p => rfl)
            · simp [applyCollatedPatches, hE, hR, hA, hL, hD, closedStatuses]
          · by_cases hW : fs.writeOk
            · constructor
              · simp [applyCollatedPatches, hE, hR, hA, hL, hD, hW]
                exact map_self_eq _ _ (fun p => rfl)
              · simp [applyCollatedPatches, hE, hR, hA, hL, hD, hW, closedStatuses]
            · constructor
              · simp [applyCollatedPatches, hE, hR, hA, hL, hD, hW]
                exact map_self_eq _ _ (fun p => rfl)
              · simp [applyCollatedPatches, hE, hR, hA, hL, hD, hW, closedStatuses]
      · by_cases hLoc : (locatedOf (locateAll fs.content threshold patches)).isEmpty
        · constructor
          · simp [applyCollatedPatches, hE, hR, hA, hLoc]
            exact locateAll_patches _ _ _
          · simp [applyCollatedPatches, hE, hR, hA, hLoc]
            exact locateAll_status_mem _ _ _
        · by_cases hCf : conflictMarks
            (stableSort (fun x y => decide (startOf x < startOf y))
              (locatedOf (locateAll fs.content threshold patches))) = []
          · by_cases hD : fs.dryRun
            · constructor
              · simp [applyCollatedPatches, hE, hR, hA, hLoc, hCf, hD]
                rw [map_patchcomp_eq _ _
                  (fun r => by by_cases hx : r.startIdx.isSome <;> simp [hx])]
                exact locateAll_patches _ _ _
              · simp [applyCollatedPatches, hE, hR, hA, hLoc, hCf, hD, closedStatuses]
                intro a ha
                have h := locateAll_status_mem _ _ _ a ha
                simp [closedStatuses] at h
                by_cases hx : a.startIdx.isSome <;> simp [hx] <;> tauto
            · by_cases hW : fs.writeOk
              · constructor
                · simp [applyCollatedPatches, hE, hR, hA, hLoc, hCf, hD, hW]
                  rw [map_patchcomp_eq _ _
                    (fun r => by by_cases hx : r.startIdx.isSome <;> simp [hx])]
                  exact locateAll_patches _ _ _
                · simp [applyCollatedPatches, hE, hR, hA, hLoc, hCf, hD, hW, closedStatuses]
                  intro a ha
                  have h := locateAll_status_mem _ _ _ a ha
                  simp [closedStatuses] at h
                  by_cases hx : a.startIdx.isSome <;> simp [hx] <;> tauto
              · constructor
                · simp [applyCollatedPatches, hE, hR, hA, hLoc, hCf, hD, hW]
                  rw [map_patchcomp_eq _ _
                    (fun r => by
                      by_cases hx : r.startIdx.isSome <;>
                        simp [Function.comp, hx])]
                  exact locateAll_patches _ _ _
                · simp [applyCollatedPatches, hE, hR, hA, hLoc, hCf, hD, hW, closedStatuses]
                  intro a ha
                  have h := locateAll_status_mem _ _ _ a ha
                  simp [closedStatuses] at h
                  by_cases hx : a.startIdx.isSome <;> simp [hx] <;> tauto
          · constructor
            · simp [applyCollatedPatches, hE, hR, hA, hLoc, hCf]
              unfold markConflicts
              rw [markConflicts_patches, locateAll_patches]
            · simp [applyCollatedPatches, hE, hR, hA, hLoc, hCf]
              unfold markConflicts
              exact markConflicts_status _ _ (locateAll_status_mem _ _ _)
    · constructor
      · simp [applyCollatedPatches, hE, hR]
        exact map_self_eq _ _ (fun p => rfl)
      · simp [applyCollatedPatches, hE, hR, closedStatuses]
  · by_cases hC : patches.all isCreationPatch
    · by_cases hD : fs.dryRun
      · constructor
        · simp [applyCollatedPatches, hE, hC, hD]
          exact map_self_eq _ _ (fun p => rfl)
        · simp [applyCollatedPatches, hE, hC, hD, closedStatuses]
      · by_cases hW : fs.writeOk
        · constructor
          · simp [applyCollatedPatches, hE, hC, hD, hW]
            exact map_self_eq _ _ (fun p => rfl)
          · simp [applyCollatedPatches, hE, hC, hD, hW, closedStatuses]
        · constructor
          · simp [applyCollatedPatches, hE, hC, hD, hW]
            exact map_self_eq _ _ (fun p => rfl)
          · simp [applyCollatedPatches, hE, hC, hD, hW, closedStatuses]
    · constructor
      · simp [applyCollatedPatches, hE, hC]
        exact map_self_eq _ _ (fun p => rfl)
      · simp [applyCollatedPatches, hE, hC, closedStatuses]

/-! ### Opcode span facts: `get_opcodes` always tiles the whole window -/

lemma head?_append_left {α : Type} (l t : List α) (o : α) (h : l.head? = some o) :
    (l ++ t).head? = some o := by
  cases l with
  | nil => simp at h
  | cons x xs => simpa using h

lemma opInv_step_sized (st : List (Tag × Nat × Nat × Nat × Nat) × Nat × Nat)
    (blk : Nat × Nat × Nat) (hs : blk.2.2 ≠ 0) (h : OpInv st) :
    OpInv (opcodeStep st blk) := by
  rcases st with ⟨ans, i, j⟩
  rcases blk with ⟨ai, bj, k⟩
  simp only at hs
  simp only [opcodeStep]
  rw [if_pos hs]
  rcases h with ⟨hnil, hi, hj⟩ | ⟨o₁, o₂, hh, h0, hl, hp⟩
  · simp only at hnil hi hj
    subst hnil hi hj
    right
    by_cases h1 : 0 < ai ∧ 0 < bj
    · rw [if_pos h1]
      exact ⟨(Tag.replace, 0, ai, 0, bj), (Tag.equal, ai, ai + k, bj, bj + k),
        by simp, rfl, by simp, by simp; omega⟩
    · rw [if_neg h1]
      by_cases h2 : 0 < ai
      · rw [if_pos h2]
        exact ⟨(Tag.delete, 0, ai, 0, bj), (Tag.equal, ai, ai + k, bj, bj + k),
          by simp, rfl, by simp, by simp; omega⟩
      · rw [if_neg h2]
        by_cases h3 : 0 < bj
        · rw [if_pos h3]
          exact ⟨(Tag.insert, 0, ai, 0, bj), (Tag.equal, ai, ai + k, bj, bj + k),
            by simp, rfl, by simp, by simp; omega⟩
        · rw [if_neg h3]
          have hai : ai = 0 := by omega
          subst hai
          exact ⟨(Tag.equal, 0, 0 + k, bj, bj + k), (Tag.equal, 0, 0 + k, bj, bj + k),
            by simp, rfl, by simp, by simp; omega⟩
  · simp only at hh hl
    right
    by_cases h1 : i < ai ∧ j < bj
    · rw [if_pos h1]
      exact ⟨o₁, (Tag.equal, ai, ai + k, bj, bj + k),
        head?_append_left _ _ _ (head?_append_left _ _ _ hh), h0, by simp,
        by simp; omega⟩
    · rw [if_neg h1]
      by_cases h2 : i < ai
      · rw [if_pos h2]
        exact ⟨o₁, (Tag.equal, ai, ai + k, bj, bj + k),
          head?_append_left _ _ _ (head?_append_left _ _ _ hh), h0, by simp,
          by simp; omega⟩
      · rw [if_neg h2]
        by_cases h3 : j < bj
        · rw [if_pos h3]
          exact ⟨o₁, (Tag.equal, ai, ai + k, bj, bj + k),
            head?_append_left _ _ _ (head?_append_left _ _ _ hh), h0, by simp,
            by simp; omega⟩
        · rw [if_neg h3]
          exact ⟨o₁, (Tag.equal, ai, ai + k, bj, bj + k),
            head?_append_left _ _ _ hh, h0, by simp, by simp; omega⟩

lemma opInv_final (st : List (Tag × Nat × Nat × Nat × Nat) × Nat × Nat)
    (la lb : Nat) (hla : 0 < la) (h : OpInv st) :
    ∃ o₁ o₂, (opcodeStep st (la, lb, 0)).1.head? = some o₁ ∧ o₁.2.1 = 0 ∧
      (opcodeStep st (la, lb, 0)).1.getLast? = some o₂ ∧ 0 < o₂.2.2.1 := by
  rcases st with ⟨ans, i, j⟩
  simp only [opcodeStep]
  rw [if_neg (by simp)]
  rcases h with ⟨hnil, hi, hj⟩ | ⟨o₁, o₂, hh, h0, hl, hp⟩
  · simp only at hnil hi hj
    subst hnil hi hj
    by_cases h1 : 0 < la ∧ 0 < lb
    · rw [if_pos h1]
      exact ⟨(Tag.replace, 0, la, 0, lb), (Tag.replace, 0, la, 0, lb),
        by simp, rfl, by simp, by simp; omega⟩
    · rw [if_neg h1, if_pos hla]
      exact ⟨(Tag.delete, 0, la, 0, lb), (Tag.delete, 0, la, 0, lb),
        by simp, rfl, by simp, by simp; omega⟩
  · simp only at hh hl
    by_cases h1 : i < la ∧ j < lb
    · rw [if_pos h1]
      exact ⟨o₁, (Tag.replace, i, la, j, lb), head?_append_left _ _ _ hh, h0,
        by simp, by simp; omega⟩
    · rw [if_neg h1]
      by_cases h2 : i < la
      · rw [if_pos h2]
        exact ⟨o₁, (Tag.delete, i, la, j, lb), head?_append_left _ _ _ hh, h0,
          by simp, by simp; omega⟩
      · rw [if_neg h2]
        by_cases h3 : j < lb
        · rw [if_pos h3]
          exact ⟨o₁, (Tag.insert, i, la, j, lb), head?_append_left _ _ _ hh, h0,
            by simp, by simp; omega⟩
        · rw [if_neg h3]
          exact ⟨o₁, o₂, hh, h0, hl, hp⟩

lemma opInv_fold (bs : List (Nat × Nat × Nat)) (hbs : ∀ x ∈ bs, x.2.2 ≠ 0)
    (st : List (Tag × Nat × Nat × Nat × Nat) × Nat × Nat) (h : OpInv st) :
    OpInv (bs.foldl opcodeStep st) := by
  induction bs generalizing st with
  | nil => exact h
  | cons x xs ih =>
    rw [List.foldl_cons]
    exact ih (fun y hy => hbs y (List.mem_cons_of_mem _ hy)) (opcodeStep st x)
      (opInv_step_sized st x (hbs x (List.mem_cons_self _ _)) h)

lemma mergeFold_sizes (bl : List (Nat × Nat × Nat)) :
    ∀ (st : List (Nat × Nat × Nat) × Nat × Nat × Nat),
      (∀ y ∈ st.1, y.2.2 ≠ 0) → ∀ y ∈ (bl.foldl mergeStep st).1, y.2.2 ≠ 0 := by
  induction bl with
  | nil => intro st hst y hy; exact hst y hy
  | cons z zs ih =>
    intro st hst y
    rw [List.foldl_cons]
    apply ih
    rcases st with ⟨acc, i1, j1, k1⟩
    rcases z with ⟨i2, j2, k2⟩
    intro w hw
    simp only [mergeStep] at hw
    by_cases h1 : i1 + k1 = i2 ∧ j1 + k1 = j2
    · rw [if_pos h1] at hw
      exact hst w hw
    · rw [if_neg h1] at hw
      by_cases h2 : k1 ≠ 0
      · rw [if_pos h2] at hw
        simp only at hw
        rcases List.mem_append.mp hw with hw | hw
        · exact hst w hw
        · rcases List.mem_singleton.mp hw with rfl
          exact h2
      · rw [if_neg h2] at hw
        exact hst w hw

lemma mergeBlocks_structure (la lb : Nat) (blocks : List (Nat × Nat × Nat)) :
    ∃ bs, mergeBlocks la lb blocks = bs ++ [(la, lb, 0)] ∧ ∀ x ∈ bs, x.2.2 ≠ 0 := by
  rcases hf : blocks.foldl mergeStep ([], 0, 0, 0) with ⟨accl, i1, j1, k1⟩
  refine ⟨accl ++ if k1 ≠ 0 then [(i1, j1, k1)] else [], ?_, ?_⟩
  · simp only [mergeBlocks, hf]
  · intro x hx
    rcases List.mem_append.mp hx with hx | hx
    · have := mergeFold_sizes blocks ([], 0, 0, 0) (by intro y hy; simp at hy) x
      rw [hf] at this
      exact this hx
    · by_cases hk : k1 ≠ 0
      · rw [if_pos hk] at hx
        rcases List.mem_singleton.mp hx with rfl
        exact hk
      · rw [if_neg hk] at hx
        simp at hx

lemma getOpcodes_head_last (a b : List Char) (ha : a ≠ []) :
    ∃ o₁ o₂, (getOpcodes a b).head? = some o₁ ∧ o₁.2.1 = 0 ∧
      (getOpcodes a b).getLast? = some o₂ ∧ 0 < o₂.2.2.1 := by
  unfold getOpcodes getMatchingBlocks
  obtain ⟨bs, heq, hbs⟩ := mergeBlocks_structure a.length b.length
    (stableSort tripleLt (matchingBlocksAux a b (a.length + b.length + 1) 0 a.length 0 b.length))
  rw [heq, List.foldl_append, List.foldl_cons, List.foldl_nil]
  exact opInv_final _ _ _ (List.length_pos.mpr ha)
    (opInv_fold bs hbs _ (Or.inl ⟨rfl, rfl, rfl⟩))

/-! ### Located spans are nonempty and nonnegative -/

lemma windowStarts_mem (len c s i : Nat) (hs : 0 < s) (h : i ∈ windowStarts len c s) :
    i + c ≤ len := by
  unfold windowStarts at h
  rcases List.mem_range'.mp h with ⟨k, hk, rfl⟩
  have hn : 1 ≤ len + 1 - c := by
    by_contra hn
    have : len + 1 - c = 0 := by omega
    rw [this] at hk
    have : (0 + s - 1) / s = 0 := Nat.div_eq_of_lt (by omega)
    omega
  have h2 : s * (k + 1) ≤ s * ((len + 1 - c + s - 1) / s) :=
    Nat.mul_le_mul_left s (by omega)
  have h3 : s * ((len + 1 - c + s - 1) / s) ≤ len + 1 - c + s - 1 := by
    rw [Nat.mul_comm]
    exact Nat.div_mul_le_self _ _
  have h4 : s * (k + 1) = s * k + s := by ring
  omega

lemma chunkSize_pos (orig : List Char) (h : orig ≠ []) : 0 < chunkSize orig := by
  unfold chunkSize
  have : 1 ≤ orig.length := List.length_pos.mpr h
  omega

lemma chunk_ne_nil (content : List Char) (i c : Nat) (hc : 0 < c)
    (hlen : i + c ≤ content.length) : (content.drop i).take c ≠ [] := by
  apply List.ne_nil_of_length_pos
  rw [List.length_take, List.length_drop]
  omega

lemma fuzzyBest_span (content orig : List Char) (ho : orig ≠ [])
    (h : 0 ≤ (fuzzyBest content orig).1) :
    0 ≤ (fuzzyBest content orig).2.1 ∧
      (fuzzyBest content orig).2.1 < (fuzzyBest content orig).2.2 := by
  have hc : 0 < chunkSize orig := chunkSize_pos orig ho
  have main : ∀ (l : List Nat), (∀ i ∈ l, i + chunkSize orig ≤ content.length) →
      ∀ best : ℚ × Int × Int, (0 ≤ best.1 → 0 ≤ best.2.1 ∧ best.2.1 < best.2.2) →
      (0 ≤ (l.foldl (fuzzyStep content orig) best).1 →
        0 ≤ (l.foldl (fuzzyStep content orig) best).2.1 ∧
        (l.foldl (fuzzyStep content orig) best).2.1 <
          (l.foldl (fuzzyStep content orig) best).2.2) := by
    intro l
    induction l with
    | nil => intro _ best hb; exact hb
    | cons x xs ih =>
      intro hmem best hb
      rw [List.foldl_cons]
      apply ih (fun i hi => hmem i (List.mem_cons_of_mem _ hi))
      have hch : (content.drop x).take (chunkSize orig) ≠ [] :=
        chunk_ne_nil content x _ hc (hmem x (List.mem_cons_self _ _))
      obtain ⟨o₁, o₂, hh, h0, hl, hp⟩ := getOpcodes_head_last _ orig hch
      simp only [fuzzyStep, hh, hl, h0]
      by_cases hlt : best.1 < smRatio ((content.drop x).take (chunkSize orig)) orig
      · rw [if_pos hlt]
        intro _
        dsimp only
        constructor
        · positivity
        · have : (x : Int) + 0 < (x : Int) + o₂.2.2.1 := by
            have : (0 : Int) < o₂.2.2.1 := by exact_mod_cast hp
            omega
          exact_mod_cast this
      · rw [if_neg hlt]
        exact hb
  exact main _ (fun i hi => windowStarts_mem _ _ _ i (stepSize_pos _) hi) _
    (by intro h0; norm_num at h0) h

lemma pyStrip_nil : pyStrip [] = [] := rfl

lemma findPatchLocation_some_strip (content orig : List Char) (threshold : ℚ)
    (x : Int × Int × Method)
    (h : (findPatchLocation content orig threshold).1 = some x) :
    pyStrip orig ≠ [] := by
  intro hs
  unfold findPatchLocation at h
  rw [if_pos hs] at h
  simp at h

lemma findPatchLocation_pos (content orig : List Char) (threshold : ℚ)
    (hθ : 0 ≤ threshold) (s e : Int) (m : Method)
    (h : (findPatchLocation content orig threshold).1 = some (s, e, m)) :
    0 ≤ s ∧ s < e := by
  have hstrip := findPatchLocation_some_strip content orig threshold _ h
  have ho : orig ≠ [] := by
    intro hnil
    exact hstrip (hnil ▸ pyStrip_nil)
  unfold findPatchLocation at h
  rw [if_neg hstrip] at h
  rcases hf : pyFind content orig 0 with _ | s0
  · rw [hf] at h
    by_cases hacc : threshold ≤ (fuzzyBest content orig).1
    · rw [if_pos hacc] at h
      simp only [Option.some.injEq, Prod.mk.injEq] at h
      obtain ⟨hs, he, _⟩ := h
      have := fuzzyBest_span content orig ho (le_trans hθ hacc)
      rw [hs, he] at this
      exact this
    · rw [if_neg hacc] at h
      simp at h
  · rw [hf] at h
    dsimp only at h
    rcases hf2 : pyFind content orig (s0 + 1) with _ | s1
    · rw [hf2] at h
      simp only [Option.some.injEq, Prod.mk.injEq] at h
      obtain ⟨hs, he, _⟩ := h
      have hlen : 0 < orig.length := List.length_pos.mpr ho
      constructor
      · rw [← hs]; positivity
      · rw [← hs, ← he]
        exact_mod_cast Nat.lt_add_of_pos_right hlen
    · rw [hf2] at h
      simp at h

/-! ### C3: an overlapping pair aborts the whole file's modification step -/

lemma locateOne_eq (content : List Char) (threshold : ℚ) (p : PatchBlock)
    (s e : Int) (m : Method)
    (h : (findPatchLocation content p.original threshold).1 = some (s, e, m)) :
    locateOne content threshold p =
      { status := .pending, patch := p, startIdx := some s, endIdx := some e,
        method := some m } := by
  unfold locateOne
  rcases hp : findPatchLocation content p.original threshold with ⟨o, rr⟩
  rw [hp] at h
  simp only at h
  subst h
  rfl

lemma isCreation_false_of_located (content : List Char) (threshold : ℚ)
    (p : PatchBlock) (x : Int × Int × Method)
    (h : (findPatchLocation content p.original threshold).1 = some x) :
    isCreationPatch p = false := by
  unfold isCreationPatch
  exact decide_eq_false (findPatchLocation_some_strip content p.original threshold x h)

/-- C3: for an existing, readable file and a batch of three modification
patches whose located spans are such that the first two overlap (nonempty
intersection) while the third overlaps neither, both members of the
overlapping pair end with `skipped_due_to_conflict`, the third located patch
is not applied (it keeps the initial `pending` status), and no write to the
file occurs. -/
theorem C3_conflict_aborts_batch (fs : FsState) (p1 p2 p3 : PatchBlock)
    (threshold : ℚ) (s1 e1 s2 e2 s3 e3 : Int) (m1 m2 m3 : Method)
    (hE : fs.fileExists = true) (hR : fs.readOk = true) (hθ : 0 ≤ threshold)
    (h1 : (findPatchLocation fs.content p1.original threshold).1 = some (s1, e1, m1))
    (h2 : (findPatchLocation fs.content p2.original threshold).1 = some (s2, e2, m2))
    (h3 : (findPatchLocation fs.content p3.original threshold).1 = some (s3, e3, m3))
    (hov : max s1 s2 < min e1 e2)
    (hd13 : min e1 e3 ≤ max s1 s3)
    (hd23 : min e2 e3 ≤ max s2 s3) :
    ((applyCollatedPatches fs [p1, p2, p3] threshold).1.map (fun r => r.status) =
      [.skipped_due_to_conflict, .skipped_due_to_conflict, .pending]) ∧
    (applyCollatedPatches fs [p1, p2, p3] threshold).2 = none := by
  obtain ⟨hpos1a, hpos1b⟩ := findPatchLocation_pos _ _ _ hθ _ _ _ h1
  obtain ⟨hpos2a, hpos2b⟩ := findPatchLocation_pos _ _ _ hθ _ _ _ h2
  obtain ⟨hpos3a, hpos3b⟩ := findPatchLocation_pos _ _ _ hθ _ _ _ h3
  have hcr1 := isCreation_false_of_located _ _ _ _ h1
  have hcr2 := isCreation_false_of_located _ _ _ _ h2
  have hcr3 := isCreation_false_of_located _ _ _ _ h3
  have hloc1 := locateOne_eq _ _ _ _ _ _ h1
  have hloc2 := locateOne_eq _ _ _ _ _ _ h2
  have hloc3 := locateOne_eq _ _ _ _ _ _ h3
  have hcase : (e3 ≤ s1 ∧ e3 ≤ s2) ∨ (e1 ≤ s3 ∧ e2 ≤ s3) := by omega
  rcases hcase with ⟨hc13, hc23⟩ | ⟨hc13, hc23⟩
  · -- the third span lies entirely to the left of the overlapping pair
    by_cases hord : s2 < s1
    · have cA : s3 < s2 := by omega
      have cB : s3 < s1 := by omega
      have cD : ¬ (e3 > s2) := by omega
      have cE : e2 > s1 := by omega
      simp [applyCollatedPatches, hE, hR, hcr1, hcr2, hcr3, locateAll, hloc1, hloc2,
        hloc3, locatedOf, List.enum, List.enumFrom, stableSort, stableInsert, startOf,
        endOf, conflictMarks, markConflicts, modifyAt, cA, cB, cD, cE, hord]
    · have cA : s3 < s2 := by omega
      have cB : s3 < s1 := by omega
      have cD : ¬ (e3 > s1) := by omega
      have cE : e1 > s2 := by omega
      simp [applyCollatedPatches, hE, hR, hcr1, hcr2, hcr3, locateAll, hloc1, hloc2,
        hloc3, locatedOf, List.enum, List.enumFrom, stableSort, stableInsert, startOf,
        endOf, conflictMarks, markConflicts, modifyAt, cA, cB, cD, cE, hord]
  · -- the third span lies entirely to the right of the overlapping pair
    by_cases hord : s2 < s1
    · have cA : ¬ (s3 < s2) := by omega
      have cB : ¬ (s3 < s1) := by omega
      have cD : e2 > s1 := by omega
      have cE : ¬ (e1 > s3) := by omega
      simp [applyCollatedPatches, hE, hR, hcr1, hcr2, hcr3, locateAll, hloc1, hloc2,
        hloc3, locatedOf, List.enum, List.enumFrom, stableSort, stableInsert, startOf,
        endOf, conflictMarks, markConflicts, modifyAt, cA, cB, cD, cE, hord]
    · have cA : ¬ (s3 < s2) := by omega
      have cD : e1 > s2 := by omega
      have cE : ¬ (e2 > s3) := by omega
      simp [applyCollatedPatches, hE, hR, hcr1, hcr2, hcr3, locateAll, hloc1, hloc2,
        hloc3, locatedOf, List.enum, List.enumFrom, stableSort, stableInsert, startOf,
        endOf, conflictMarks, markConflicts, modifyAt, cA, cD, cE, hord]

/-- Witness for C3 on the file `"abcdefghij"`: patches at `[0,4)`, `[2,6)`
(overlapping) and `[7,10)` (disjoint from both). -/
theorem C3_conflict_aborts_batch_witness :
    ((applyCollatedPatches ⟨true, true, ("abcdefghij".data), true, false⟩
      [⟨("f".data), ("abcd".data), ("X".data)⟩, ⟨("f".data), ("cdef".data), ("Y".data)⟩,
        ⟨("f".data), ("hij".data), ("Z".data)⟩] 0).1.map (fun r => r.status) =
      [.skipped_due_to_conflict, .skipped_due_to_conflict, .pending]) ∧
    (applyCollatedPatches ⟨true, true, ("abcdefghij".data), true, false⟩
      [⟨("f".data), ("abcd".data), ("X".data)⟩, ⟨("f".data), ("cdef".data), ("Y".data)⟩,
        ⟨("f".data), ("hij".data), ("Z".data)⟩] 0).2 = none :=
  C3_conflict_aborts_batch ⟨true, true, ("abcdefghij".data), true, false⟩
    ⟨("f".data), ("abcd".data), ("X".data)⟩ ⟨("f".data), ("cdef".data), ("Y".data)⟩
    ⟨("f".data), ("hij".data), ("Z".data)⟩ 0 0 4 2 6 7 10 .verbatim .verbatim .verbatim
    rfl rfl le_rfl (by decide) (by decide) (by decide) (by decide) (by decide) (by decide)

/-! ### C4: descending-order application equals independent substitution -/

lemma take_min_length {α : Type} (l : List α) (s : Nat) :
    l.take (min s l.length) = l.take s := by
  rcases le_total s l.length with h | h
  · rw [min_eq_left h]
  · rw [min_eq_right h, List.take_length, List.take_of_length_le h]

lemma drop_min_length {α : Type} (l : List α) (s : Nat) :
    l.drop (min s l.length) = l.drop s := by
  rcases le_total s l.length with h | h
  · rw [min_eq_left h]
  · rw [min_eq_right h, List.drop_length, List.drop_eq_nil_of_le h]

lemma pySliceTo_natCast (l : List Char) (s : Nat) : pySliceTo l (s : Int) = l.take s := by
  unfold pySliceTo pyIdx
  rw [if_neg (by omega)]
  simp only [Int.toNat_natCast]
  exact take_min_length l s

lemma pySliceFrom_natCast (l : List Char) (e : Nat) :
    pySliceFrom l (e : Int) = l.drop e := by
  unfold pySliceFrom pyIdx
  rw [if_neg (by omega)]
  simp only [Int.toNat_natCast]
  exact drop_min_length l e

lemma locateAll_eq_map (content : List Char) (threshold : ℚ)
    (L : List (PatchBlock × Nat × Nat × Method))
    (h : ∀ x ∈ L, (findPatchLocation content x.1.original threshold).1 =
      some ((x.2.1 : Int), (x.2.2.1 : Int), x.2.2.2)) :
    locateAll content threshold (L.map (fun x => x.1)) = L.map locatedRecord := by
  induction L with
  | nil => rfl
  | cons x xs ih =>
    simp only [List.map_cons, locateAll, List.map_cons] at ih ⊢
    rw [locateOne_eq _ _ _ _ _ _ (h x (List.mem_cons_self _ _))]
    have := ih (fun y hy => h y (List.mem_cons_of_mem _ hy))
    unfold locateAll at this
    rw [this]
    rfl

lemma locatedOf_eq_enum (l : List PatchResult) (h : ∀ r ∈ l, r.startIdx.isSome) :
    locatedOf l = l.enum := by
  unfold locatedOf
  apply List.filter_eq_self.mpr
  intro x hx
  have hx2 : x.2 ∈ l := by
    rcases x with ⟨i, r⟩
    exact List.get?_mem (List.mem_enum_iff_get?.mp hx)
  simpa using h x.2 hx2

lemma startOf_locatedRecord (n : Nat) (x : PatchBlock × Nat × Nat × Method) :
    startOf (n, locatedRecord x) = (x.2.1 : Int) := rfl

lemma endOf_locatedRecord (n : Nat) (x : PatchBlock × Nat × Nat × Method) :
    endOf (n, locatedRecord x) = (x.2.2.1 : Int) := rfl

lemma enum_start_lb (len : Nat) (L : List (PatchBlock × Nat × Nat × Method)) :
    ∀ n prev, SpansChain len prev L →
      ∀ y ∈ (L.map locatedRecord).enumFrom n, (prev : Int) ≤ startOf y := by
  induction L with
  | nil => intro n prev _ y hy; simp [List.enumFrom] at hy
  | cons x xs ih =>
    intro n prev hch y hy
    obtain ⟨h1, h2, h3, hrest⟩ := hch
    simp only [List.map_cons, List.enumFrom, List.mem_cons] at hy
    rcases hy with rfl | hy
    · rw [startOf_locatedRecord]
      exact_mod_cast h1
    · have := ih (n + 1) x.2.2.1 hrest y hy
      have hle : (prev : Int) ≤ (x.2.2.1 : Int) := by exact_mod_cast by omega
      exact le_trans hle this

lemma stableSort_asc (len : Nat) (L : List (PatchBlock × Nat × Nat × Method)) :
    ∀ n prev, SpansChain len prev L →
      stableSort (fun x y => decide (startOf x < startOf y))
        ((L.map locatedRecord).enumFrom n) = (L.map locatedRecord).enumFrom n := by
  induction L with
  | nil => intro n prev _; rfl
  | cons x xs ih =>
    intro n prev hch
    obtain ⟨h1, h2, h3, hrest⟩ := hch
    simp only [List.map_cons, List.enumFrom, stableSort]
    rw [ih (n + 1) x.2.2.1 hrest]
    cases xs with
    | nil => rfl
    | cons y ys =>
      simp only [List.map_cons, List.enumFrom, stableInsert]
      rw [if_neg ?_]
      rw [startOf_locatedRecord, startOf_locatedRecord]
      have hy : x.2.2.1 ≤ y.2.1 := hrest.1
      simp only [decide_eq_true_eq, not_lt]
      exact_mod_cast by omega

lemma stableInsert_all {α : Type} (lt : α → α → Bool) (x : α) (l : List α)
    (h : ∀ y ∈ l, lt y x = true) : stableInsert lt x l = l ++ [x] := by
  induction l with
  | nil => rfl
  | cons z zs ih =>
    simp only [stableInsert]
    rw [if_pos (h z (List.mem_cons_self _ _)),
      ih (fun y hy => h y (List.mem_cons_of_mem _ hy))]
    rfl

lemma stableSort_desc (len : Nat) (L : List (PatchBlock × Nat × Nat × Method)) :
    ∀ n prev, SpansChain len prev L →
      stableSort (fun x y => decide (startOf y < startOf x))
        ((L.map locatedRecord).enumFrom n) = ((L.map locatedRecord).enumFrom n).reverse := by
  induction L with
  | nil => intro n prev _; rfl
  | cons x xs ih =>
    intro n prev hch
    obtain ⟨h1, h2, h3, hrest⟩ := hch
    simp only [List.map_cons, List.enumFrom, stableSort]
    rw [ih (n + 1) x.2.2.1 hrest, List.reverse_cons]
    apply stableInsert_all
    intro y hy
    rw [List.mem_reverse] at hy
    have := enum_start_lb len xs (n + 1) x.2.2.1 hrest y hy
    rw [startOf_locatedRecord]
    simp only [decide_eq_true_eq]
    have hx : (x.2.1 : Int) < (x.2.2.1 : Int) := by exact_mod_cast h2
    omega

lemma conflictMarks_cons_cons (a b : Nat × PatchResult) (t : List (Nat × PatchResult))
    (h : ¬ endOf a > startOf b) :
    conflictMarks (a :: b :: t) = conflictMarks (b :: t) := by
  unfold conflictMarks
  simp only [List.tail_cons, List.zip_cons_cons, List.foldl_cons]
  rw [if_neg h]

lemma conflictMarks_nil_of_chain (len : Nat) (L : List (PatchBlock × Nat × Nat × Method)) :
    ∀ n prev, SpansChain len prev L →
      conflictMarks ((L.map locatedRecord).enumFrom n) = [] := by
  induction L with
  | nil => intro n prev _; rfl
  | cons x xs ih =>
    intro n prev hch
    obtain ⟨h1, h2, h3, hrest⟩ := hch
    cases xs with
    | nil => rfl
    | cons y ys =>
      simp only [List.map_cons, List.enumFrom]
      rw [conflictMarks_cons_cons]
      · have := ih (n + 1) x.2.2.1 hrest
        simpa [List.enumFrom] using this
      · rw [endOf_locatedRecord, startOf_locatedRecord]
        have hy : x.2.2.1 ≤ y.2.1 := hrest.1
        simp only [gt_iff_lt, not_lt]
        exact_mod_cast hy

lemma applyDescending_enum (content : List Char) (l : List PatchResult) :
    ∀ n, applyDescending content ((l.enumFrom n).reverse) =
      l.foldr (fun r acc => pySliceTo acc (r.startIdx.getD 0) ++ r.patch.new ++
        pySliceFrom acc (r.endIdx.getD 0)) content := by
  induction l with
  | nil => intro n; rfl
  | cons x xs ih =>
    intro n
    simp only [List.enumFrom, List.reverse_cons, List.foldr_cons]
    unfold applyDescending
    rw [List.foldl_append, List.foldl_cons, List.foldl_nil]
    unfold applyDescending at ih
    rw [ih (n + 1)]
    rfl

lemma foldr_records (content : List Char) (L : List (PatchBlock × Nat × Nat × Method)) :
    (L.map locatedRecord).foldr
      (fun r acc => pySliceTo acc (r.startIdx.getD 0) ++ r.patch.new ++
        pySliceFrom acc (r.endIdx.getD 0)) content =
    (L.map (fun x => (x.2.1, x.2.2.1, x.1.new))).foldr
      (fun t acc => acc.take t.1 ++ t.2.2 ++ acc.drop t.2.1) content := by
  induction L with
  | nil => rfl
  | cons x xs ih =>
    simp only [List.map_cons, List.foldr_cons, ih]
    rw [show (locatedRecord x).startIdx.getD 0 = ((x.2.1 : Nat) : Int) from rfl,
      show (locatedRecord x).endIdx.getD 0 = ((x.2.2.1 : Nat) : Int) from rfl,
      pySliceTo_natCast, pySliceFrom_natCast]
    rfl

lemma foldr_subst_spec (content : List Char) (L : List (PatchBlock × Nat × Nat × Method)) :
    ∀ prev, SpansChain content.length prev L →
      (L.map (fun x => (x.2.1, x.2.2.1, x.1.new))).foldr
        (fun t acc => acc.take t.1 ++ t.2.2 ++ acc.drop t.2.1) content =
      content.take prev ++
        specInterleave content prev (L.map (fun x => (x.2.1, x.2.2.1, x.1.new))) := by
  induction L with
  | nil =>
    intro prev _
    simp only [List.map_nil, List.foldr_nil, specInterleave]
    rw [List.take_append_drop]
  | cons x xs ih =>
    intro prev hch
    obtain ⟨h1, h2, h3, hrest⟩ := hch
    simp only [List.map_cons, List.foldr_cons, specInterleave]
    rw [ih x.2.2.1 hrest]
    generalize specInterleave content x.2.2.1
      (xs.map (fun x => (x.2.1, x.2.2.1, x.1.new))) = I
    have hlen : (content.take x.2.2.1).length = x.2.2.1 := by
      rw [List.length_take]
      exact min_eq_left h3
    have htake : (content.take x.2.2.1 ++ I).take x.2.1 = content.take x.2.1 := by
      rw [List.take_append_of_le_length (by rw [hlen]; omega), List.take_take,
        min_eq_left (le_of_lt h2)]
    have hdrop : (content.take x.2.2.1 ++ I).drop x.2.2.1 = I := by
      have h := List.drop_left (content.take x.2.2.1) I
      rw [hlen] at h
      exact h
    rw [htake, hdrop]
    have hadd : prev + (x.2.1 - prev) = x.2.1 := by omega
    have hsplit : content.take x.2.1 =
        content.take prev ++ (content.drop prev).take (x.2.1 - prev) := by
      conv_lhs => rw [← hadd]
      rw [List.take_add]
    rw [hsplit]
    simp [List.append_assoc]

lemma final_status_map (L : List (PatchBlock × Nat × Nat × Method)) :
    ((L.map locatedRecord).map (fun r =>
      if r.startIdx.isSome = true then
        { r with status := Status.applied_modification } else r)).map
      (fun r => r.status) = L.map (fun _ => Status.applied_modification) := by
  induction L with
  | nil => rfl
  | cons x xs ih =>
    simp only [List.map_cons, List.cons.injEq]
    exact ⟨rfl, ih⟩

/-- C4: for an existing, readable file and a batch of located patches whose
spans (computed against the same unmutated content) are ascending and
pairwise non-overlapping, `apply_collated_patches` applies them in
descending-start order, marks each `applied_modification`, and writes
exactly the content described by independent substitution at the original
offsets: the concatenation of the unchanged segments of the original
content interleaved with each patch's new text in ascending span order. -/
theorem C4_descending_equals_independent (fs : FsState)
    (L : List (PatchBlock × Nat × Nat × Method)) (threshold : ℚ)
    (hE : fs.fileExists = true) (hR : fs.readOk = true)
    (hD : fs.dryRun = false) (hW : fs.writeOk = true) (hne : L ≠ [])
    (hloc : ∀ x ∈ L, (findPatchLocation fs.content x.1.original threshold).1 =
      some ((x.2.1 : Int), (x.2.2.1 : Int), x.2.2.2))
    (hchain : SpansChain fs.content.length 0 L) :
    ((applyCollatedPatches fs (L.map (fun x => x.1)) threshold).1.map
      (fun r => r.status) = L.map (fun _ => Status.applied_modification)) ∧
    (applyCollatedPatches fs (L.map (fun x => x.1)) threshold).2 =
      some (specInterleave fs.content 0 (L.map (fun x => (x.2.1, x.2.2.1, x.1.new)))) := by
  have hAny : (L.map (fun x => x.1)).any isCreationPatch = false := by
    rw [List.any_eq_false]
    intro p hp
    rcases List.mem_map.mp hp with ⟨y, hy, rfl⟩
    rw [isCreation_false_of_located fs.content threshold _ _ (hloc y hy)]
    exact Bool.false_ne_true
  have hlocAll := locateAll_eq_map fs.content threshold L hloc
  have hSome : ∀ r ∈ L.map locatedRecord, r.startIdx.isSome := by
    intro r hr
    rcases List.mem_map.mp hr with ⟨y, _, rfl⟩
    rfl
  have hlocated := locatedOf_eq_enum _ hSome
  have hee : (L.map locatedRecord).enum = (L.map locatedRecord).enumFrom 0 := rfl
  have hne2 : ((L.map locatedRecord).enumFrom 0).isEmpty = false := by
    cases L with
    | nil => exact absurd rfl hne
    | cons x xs => rfl
  have hsortA := stableSort_asc fs.content.length L 0 0 hchain
  have hsortD := stableSort_desc fs.content.length L 0 0 hchain
  have hmarks := conflictMarks_nil_of_chain fs.content.length L 0 0 hchain
  have happly : applyDescending fs.content (((L.map locatedRecord).enumFrom 0).reverse) =
      specInterleave fs.content 0 (L.map (fun x => (x.2.1, x.2.2.1, x.1.new))) := by
    rw [applyDescending_enum, foldr_records, foldr_subst_spec fs.content L 0 hchain]
    simp
  simp only [applyCollatedPatches, hE, hR, hAny, hlocAll, hlocated, hee, hne2,
    hsortA, hmarks, hsortD, happly, hD, hW, Bool.false_eq_true, Bool.true_eq_false,
    not_true_eq_false, not_false_eq_true, if_false, if_true, ite_not, ne_eq,
    not_true, reduceIte]
  constructor
  · exact final_status_map L
  · trivial

/-- Witness for C4: on `"abcdefghij"`, the patches `"ab"→"X"` at `[0,2)`,
`"ef"→"YY"` at `[4,6)`, `"hij"→"Z"` at `[7,10)` all apply and the single
write is `"XcdYYgZ"`, the independent-substitution result. -/
theorem C4_descending_equals_independent_witness :
    ((applyCollatedPatches ⟨true, true, ("abcdefghij".data), true, false⟩
      [⟨("f".data), ("ab".data), ("X".data)⟩, ⟨("f".data), ("ef".data), ("YY".data)⟩,
        ⟨("f".data), ("hij".data), ("Z".data)⟩] 0).1.map (fun r => r.status) =
      [.applied_modification, .applied_modification, .applied_modification]) ∧
    (applyCollatedPatches ⟨true, true, ("abcdefghij".data), true, false⟩
      [⟨("f".data), ("ab".data), ("X".data)⟩, ⟨("f".data), ("ef".data), ("YY".data)⟩,
        ⟨("f".data), ("hij".data), ("Z".data)⟩] 0).2 = some ("XcdYYgZ".data) := by
  have h := C4_descending_equals_independent
    ⟨true, true, ("abcdefghij".data), true, false⟩
    [(⟨("f".data), ("ab".data), ("X".data)⟩, 0, 2, .verbatim),
      (⟨("f".data), ("ef".data), ("YY".data)⟩, 4, 6, .verbatim),
      (⟨("f".data), ("hij".data), ("Z".data)⟩, 7, 10, .verbatim)] 0
    rfl rfl rfl rfl (by decide) (by decide)
    (by refine ⟨by decide, by decide, by decide, by decide, by decide, by decide,
      by decide, by decide, by decide, ?_⟩; trivial)
  exact ⟨h.1, h.2⟩

/-! ### Lines: splitting and joining -/

lemma takeWhile_no_newline (body J : List Char) (hb : ∀ c ∈ body, c ≠ '\n') :
    (body ++ '\n' :: J).takeWhile (fun c => c ≠ '\n') = body := by
  induction body with
  | nil => simp [List.takeWhile]
  | cons c cs ih =>
    have hc : c ≠ '\n' := hb c (List.mem_cons_self _ _)
    simp only [List.cons_append, List.takeWhile_cons]
    rw [if_pos (by simpa using hc)]
    rw [ih (fun x hx => hb x (List.mem_cons_of_mem _ hx))]

lemma dropWhile_no_newline (body J : List Char) (hb : ∀ c ∈ body, c ≠ '\n') :
    (body ++ '\n' :: J).dropWhile (fun c => c ≠ '\n') = '\n' :: J := by
  induction body with
  | nil => simp [List.dropWhile]
  | cons c cs ih =>
    have hc : c ≠ '\n' := hb c (List.mem_cons_self _ _)
    simp only [List.cons_append, List.dropWhile_cons]
    rw [if_pos (by simpa using hc)]
    exact ih (fun x hx => hb x (List.mem_cons_of_mem _ hx))

lemma span_no_newline (body J : List Char) (hb : ∀ c ∈ body, c ≠ '\n') :
    (body ++ '\n' :: J).span (fun c => c ≠ '\n') = (body, '\n' :: J) := by
  rw [List.span_eq_take_drop, takeWhile_no_newline body J hb,
    dropWhile_no_newline body J hb]

lemma splitLinesKE_nil : splitLinesKE [] = [] := by
  unfold splitLinesKE
  rfl

lemma splitLinesKE_cons (body J : List Char) (hb : ∀ c ∈ body, c ≠ '\n') :
    splitLinesKE (body ++ '\n' :: J) = (body ++ ['\n']) :: splitLinesKE J := by
  rw [splitLinesKE]
  split
  · next a heq =>
    rw [span_no_newline body J hb] at heq
    exact absurd (congrArg Prod.snd heq) (by simp)
  · next a c rest heq =>
    rw [span_no_newline body J hb] at heq
    obtain ⟨ha, hc, hJ⟩ : body = a ∧ '\n' = c ∧ J = rest := by
      simpa [Prod.ext_iff] using heq
    rw [← ha, ← hJ]

lemma line_eq_dropLast_newline (l : Line) (hterm : l.getLast? = some '\n') :
    l = l.dropLast ++ ['\n'] := by
  cases hl : l.getLast? with
  | none => rw [hl] at hterm; exact absurd hterm (by simp)
  | some c =>
    rw [hl] at hterm
    have hc : c = '\n' := by simpa using hterm
    have hne : l ≠ [] := by
      intro h
      rw [h] at hl
      simp at hl
    rw [← hc]
    have := List.dropLast_append_getLast hne
    rw [List.getLast?_eq_getLast l hne] at hl
    have hcc : l.getLast hne = c := by simpa using hl
    rw [← hcc]
    exact this.symm

lemma splitLinesKE_join (ls : List Line)
    (h : ∀ l ∈ ls, '\n' ∉ l.dropLast ∧ l.getLast? = some '\n') :
    splitLinesKE (joinLines ls) = ls := by
  induction ls with
  | nil => exact splitLinesKE_nil
  | cons l rest ih =>
    obtain ⟨hnl, hterm⟩ := h l (List.mem_cons_self _ _)
    have hl := line_eq_dropLast_newline l hterm
    have hjoin : joinLines (l :: rest) = l.dropLast ++ '\n' :: joinLines rest := by
      unfold joinLines
      rw [List.flatten_cons]
      conv_lhs => rw [hl]
      rw [List.append_assoc]
      rfl
    rw [hjoin, splitLinesKE_cons _ _ (fun c hc => by
      intro hceq
      exact hnl (hceq ▸ hc))]
    rw [ih (fun x hx => h x (List.mem_cons_of_mem _ hx)), ← hl]

/-! ### C5: recovery after a malformed block -/

lemma foldl_inOriginal (lines : List Line)
    (h : ∀ l ∈ lines, pyStrip l ≠ ("#=====".data) ∧ pyStrip l ≠ ("```".data)) :
    ∀ st : ParserSt, st.state = .inOriginal →
      lines.foldl parseStep st =
        { st with origLines := st.origLines ++ lines,
                  lineNum := st.lineNum + lines.length } := by
  induction lines with
  | nil =>
    intro st hst
    rw [List.foldl_nil]
    rcases st with ⟨a, b, c, d, e, f, g⟩
    simp
  | cons l rest ih =>
    intro st hst
    obtain ⟨h1, h2⟩ := h l (List.mem_cons_self _ _)
    rw [List.foldl_cons]
    have hstep : parseStep st l =
        { st with origLines := st.origLines ++ [l], lineNum := st.lineNum + 1 } := by
      unfold parseStep
      rw [hst]
      dsimp only
      rw [if_neg h1, if_neg h2]
    rw [hstep, ih (fun x hx => h x (List.mem_cons_of_mem _ hx))
      { st with origLines := st.origLines ++ [l], lineNum := st.lineNum + 1 } hst]
    rcases st with ⟨a, b, c, d, e, f, g⟩
    simp [List.append_assoc]
    omega

lemma foldl_inNew (lines : List Line)
    (h : ∀ l ∈ lines, pyStrip l ≠ ("```".data)) :
    ∀ st : ParserSt, st.state = .inNew →
      lines.foldl parseStep st =
        { st with newLines := st.newLines ++ lines,
                  lineNum := st.lineNum + lines.length } := by
  induction lines with
  | nil =>
    intro st hst
    rw [List.foldl_nil]
    rcases st with ⟨a, b, c, d, e, f, g⟩
    simp
  | cons l rest ih =>
    intro st hst
    have h1 := h l (List.mem_cons_self _ _)
    rw [List.foldl_cons]
    have hstep : parseStep st l =
        { st with newLines := st.newLines ++ [l], lineNum := st.lineNum + 1 } := by
      unfold parseStep
      rw [hst]
      dsimp only
      rw [if_neg h1]
    rw [hstep, ih (fun x hx => h x (List.mem_cons_of_mem _ hx))
      { st with newLines := st.newLines ++ [l], lineNum := st.lineNum + 1 } hst]
    rcases st with ⟨a, b, c, d, e, f, g⟩
    simp [List.append_assoc]
    omega

/-- C5: an input consisting of one malformed block (an open marker followed
by a line that is neither blank nor a code fence) and then one well-formed
Format-1 block yields exactly the one well-formed `PatchBlock` and exactly
one malformed-block diagnostic (at line 2); the malformed block aborts only
itself. -/
theorem C5_parser_recovery
    (openBad badLine openLine fence1 sepLine fence2 endLine : Line)
    (origLines newLines : List Line)
    (hv : ∀ l ∈ [openBad, badLine, openLine, fence1] ++ origLines ++ [sepLine] ++
      newLines ++ [fence2, endLine], '\n' ∉ l.dropLast ∧ l.getLast? = some '\n')
    (hb1 : (pyStrip openBad).take 6 = ("#>>>>>".data))
    (hb2 : pyStrip badLine ≠ ("```".data)) (hb3 : pyStrip badLine ≠ [])
    (hw1 : (pyStrip openLine).take 6 = ("#>>>>>".data))
    (hw2 : pyStrip fence1 = ("```".data))
    (hw3 : pyStrip sepLine = ("#=====".data))
    (hw4 : pyStrip fence2 = ("```".data))
    (hw5 : pyStrip endLine = ("#<<<<< end".data))
    (ho : ∀ l ∈ origLines, pyStrip l ≠ ("#=====".data) ∧ pyStrip l ≠ ("```".data))
    (hn : ∀ l ∈ newLines, pyStrip l ≠ ("```".data)) :
    parseDiffFile (joinLines ([openBad, badLine, openLine, fence1] ++ origLines ++
        [sepLine] ++ newLines ++ [fence2, endLine])) =
      ([⟨pyStrip ((pyStrip openLine).drop 6), joinLines origLines,
          joinLines newLines⟩], [.malformed 2]) := by
  unfold parseDiffFile
  rw [splitLinesKE_join _ hv]
  unfold parseLines
  have s1 : parseStep initParserSt openBad =
      ⟨.expectOriginalOpen, pyStrip ((pyStrip openBad).drop 6), [], [], [], [], 1⟩ := by
    unfold parseStep initParserSt
    dsimp only
    rw [if_pos hb1]
  have s2 : parseStep ⟨.expectOriginalOpen, pyStrip ((pyStrip openBad).drop 6),
      [], [], [], [], 1⟩ badLine =
      ⟨.seekStart, pyStrip ((pyStrip openBad).drop 6), [], [], [],
        [.malformed 2], 2⟩ := by
    unfold parseStep
    dsimp only
    rw [if_neg hb2, if_pos hb3]
    simp
  have s3 : parseStep ⟨.seekStart, pyStrip ((pyStrip openBad).drop 6), [], [], [],
      [.malformed 2], 2⟩ openLine =
      ⟨.expectOriginalOpen, pyStrip ((pyStrip openLine).drop 6), [], [],
        [], [.malformed 2], 3⟩ := by
    unfold parseStep
    dsimp only
    rw [if_pos hw1]
  have s4 : parseStep ⟨.expectOriginalOpen, pyStrip ((pyStrip openLine).drop 6),
      [], [], [], [.malformed 2], 3⟩ fence1 =
      ⟨.inOriginal, pyStrip ((pyStrip openLine).drop 6), [], [],
        [], [.malformed 2], 4⟩ := by
    unfold parseStep
    dsimp only
    rw [if_pos hw2]
  have s5 : parseStep ⟨.inOriginal, pyStrip ((pyStrip openLine).drop 6), origLines,
      [], [], [.malformed 2], 4 + origLines.length⟩ sepLine =
      ⟨.inNew, pyStrip ((pyStrip openLine).drop 6), origLines, [],
        [], [.malformed 2], 4 + origLines.length + 1⟩ := by
    unfold parseStep
    dsimp only
    rw [if_pos hw3]
  have s6 : parseStep ⟨.inNew, pyStrip ((pyStrip openLine).drop 6), origLines,
      newLines, [], [.malformed 2], 4 + origLines.length + 1 + newLines.length⟩
      fence2 =
      ⟨.expectEnd, pyStrip ((pyStrip openLine).drop 6), origLines, newLines,
        [], [.malformed 2], 4 + origLines.length + 1 + newLines.length + 1⟩ := by
    unfold parseStep
    dsimp only
    rw [if_pos hw4]
  have s7 : parseStep ⟨.expectEnd, pyStrip ((pyStrip openLine).drop 6), origLines,
      newLines, [], [.malformed 2],
      4 + origLines.length + 1 + newLines.length + 1⟩ endLine =
      ⟨.seekStart, pyStrip ((pyStrip openLine).drop 6), [], [],
        [⟨pyStrip ((pyStrip openLine).drop 6), joinLines origLines,
          joinLines newLines⟩], [.malformed 2],
        4 + origLines.length + 1 + newLines.length + 2⟩ := by
    unfold parseStep
    dsimp only
    rw [if_pos hw5]
    simp
  have e1 : List.foldl parseStep initParserSt [openBad, badLine, openLine, fence1] =
      ⟨.inOriginal, pyStrip ((pyStrip openLine).drop 6), [], [], [], [.malformed 2], 4⟩ := by
    rw [List.foldl_cons, s1, List.foldl_cons, s2, List.foldl_cons, s3,
      List.foldl_cons, s4, List.foldl_nil]
  have e2 : List.foldl parseStep
      (⟨.inOriginal, pyStrip ((pyStrip openLine).drop 6), [], [], [], [.malformed 2], 4⟩ : ParserSt) origLines =
      ⟨.inOriginal, pyStrip ((pyStrip openLine).drop 6), origLines, [], [], [.malformed 2],
        4 + origLines.length⟩ := by
    rw [foldl_inOriginal origLines ho _ rfl]
    simp
  have e3 : List.foldl parseStep
      (⟨.inOriginal, pyStrip ((pyStrip openLine).drop 6), origLines, [], [], [.malformed 2],
        4 + origLines.length⟩ : ParserSt) [sepLine] =
      ⟨.inNew, pyStrip ((pyStrip openLine).drop 6), origLines, [], [], [.malformed 2],
        4 + origLines.length + 1⟩ := by
    rw [List.foldl_cons, s5, List.foldl_nil]
  have e4 : List.foldl parseStep
      (⟨.inNew, pyStrip ((pyStrip openLine).drop 6), origLines, [], [], [.malformed 2],
        4 + origLines.length + 1⟩ : ParserSt) newLines =
      ⟨.inNew, pyStrip ((pyStrip openLine).drop 6), origLines, newLines, [], [.malformed 2],
        4 + origLines.length + 1 + newLines.length⟩ := by
    rw [foldl_inNew newLines hn _ rfl]
    simp
  have e5 : List.foldl parseStep
      (⟨.inNew, pyStrip ((pyStrip openLine).drop 6), origLines, newLines, [], [.malformed 2],
        4 + origLines.length + 1 + newLines.length⟩ : ParserSt) [fence2, endLine] =
      ⟨.seekStart, pyStrip ((pyStrip openLine).drop 6), [], [],
        [⟨pyStrip ((pyStrip openLine).drop 6), joinLines origLines, joinLines newLines⟩],
        [.malformed 2], 4 + origLines.length + 1 + newLines.length + 2⟩ := by
    rw [List.foldl_cons, s6, List.foldl_cons, s7, List.foldl_nil]
  rw [List.foldl_append, List.foldl_append, List.foldl_append, List.foldl_append,
    e1, e2, e3, e4, e5]
  simp

/-- Witness for C5: a malformed block (open marker, then `oops`) followed by
a well-formed Format-1 block yields exactly that block and one diagnostic at
line 2. -/
theorem C5_parser_recovery_witness :
    parseDiffFile
      (("#>>>>> bad\noops\n#>>>>> target.txt\n```\nA\n#=====\nB\n```\n#<<<<< end\n").data) =
      ([⟨("target.txt".data), ("A\n".data), ("B\n".data)⟩], [.malformed 2]) := by
  have h := C5_parser_recovery ("#>>>>> bad\n".data) ("oops\n".data)
    ("#>>>>> target.txt\n".data) ("```\n".data) ("#=====\n".data) ("```\n".data)
    ("#<<<<< end\n".data) [("A\n".data)] [("B\n".data)]
    (by decide) (by decide) (by decide) (by decide) (by decide) (by decide)
    (by decide) (by decide) (by decide) (by decide) (by decide)
  have hj : ("#>>>>> bad\noops\n#>>>>> target.txt\n```\nA\n#=====\nB\n```\n#<<<<< end\n").data =
      joinLines ([("#>>>>> bad\n".data), ("oops\n".data), ("#>>>>> target.txt\n".data),
        ("```\n".data)] ++ [("A\n".data)] ++ [("#=====\n".data)] ++ [("B\n".data)] ++
        [("```\n".data), ("#<<<<< end\n".data)]) := by decide
  rw [hj]
  exact h.trans (by decide)

/-! ### C10: parsed originals never contain fence or separator lines -/

lemma parseStep_inv_blocks (st : ParserSt) (l : Line)
    (hb : ∀ b ∈ st.blocks, GoodBlockP b) (ho : ∀ x ∈ st.origLines, GoodLineP x) :
    ∀ b ∈ (parseStep st l).blocks, GoodBlockP b := by
  rcases st with ⟨state, fn, ol, nl, bks, dg, ln⟩
  dsimp only at hb ho
  cases state <;> (unfold parseStep; dsimp only) <;> split_ifs <;>
    (try exact hb) <;> intro b hbmem <;> (try dsimp only at hbmem) <;>
    rcases List.mem_append.mp hbmem with hbmem | hbmem <;>
    (try exact hb b hbmem) <;>
    rcases List.mem_singleton.mp hbmem with rfl <;> intro x hx <;>
    (try dsimp only at hx)
  · rw [splitLinesKE_nil] at hx
    exact absurd hx (List.not_mem_nil x)
  · rw [splitLinesKE_join ol (fun y hy => ⟨(ho y hy).2.2.1, (ho y hy).2.2.2⟩)] at hx
    exact ⟨(ho x hx).1, (ho x hx).2.1⟩

lemma parseStep_inv_orig (st : ParserSt) (l : Line)
    (ho : ∀ x ∈ st.origLines, GoodLineP x)
    (hnl : '\n' ∉ l.dropLast) (hterm : l.getLast? = some '\n') :
    ∀ x ∈ (parseStep st l).origLines, GoodLineP x := by
  rcases st with ⟨state, fn, ol, nl, bks, dg, ln⟩
  dsimp only at ho
  cases state <;> (unfold parseStep; dsimp only) <;> split_ifs <;>
    (try exact ho) <;> intro x hx <;> (try dsimp only at hx) <;>
    (try exact absurd hx (List.not_mem_nil x))
  rename_i h1 h2
  rcases List.mem_append.mp hx with hx | hx
  · exact ho x hx
  · rcases List.mem_singleton.mp hx with rfl
    exact ⟨h2, h1, hnl, hterm⟩

lemma parse_blocks_good (ls : List Line) :
    ValidLines ls → ∀ st : ParserSt, (∀ b ∈ st.blocks, GoodBlockP b) →
      (∀ x ∈ st.origLines, GoodLineP x) →
      ∀ b ∈ (ls.foldl parseStep st).blocks, GoodBlockP b := by
  induction ls with
  | nil => intro _ st hb _; exact hb
  | cons l rest ih =>
    intro hv st hb ho
    rw [List.foldl_cons]
    cases rest with
    | nil =>
      rw [List.foldl_nil]
      exact parseStep_inv_blocks st l hb ho
    | cons l2 rest2 =>
      obtain ⟨hnl, hne, hterm, hv2⟩ := hv
      exact ih hv2 _ (parseStep_inv_blocks st l hb ho)
        (parseStep_inv_orig st l ho hnl hterm)

lemma splitLinesKE_validLines : ∀ (n : Nat) (l : List Char), l.length ≤ n →
    ValidLines (splitLinesKE l) := by
  intro n
  induction n with
  | zero =>
    intro l hl
    have : l = [] := List.length_eq_zero.mp (Nat.le_zero.mp hl)
    rw [this, splitLinesKE_nil]
    trivial
  | succ n ih =>
    intro l hl
    rw [splitLinesKE]
    split
    · next a heq =>
      split
      · trivial
      · next hlnil =>
        have hdw : l.dropWhile (fun c => c ≠ '\n') = [] := by
          have hdw0 := congrArg Prod.snd heq
          rwa [List.span_eq_take_drop] at hdw0
        have hall : ∀ c ∈ l, c ≠ '\n' := by
          intro c hc
          have := List.dropWhile_eq_nil_iff.mp hdw c hc
          simpa using this
        exact ⟨fun hmem => hall '\n' (List.dropLast_subset l hmem) rfl, hlnil⟩
    · next a c rest heq =>
      have hspan := heq
      rw [List.span_eq_take_drop] at hspan
      obtain ⟨hta, htd⟩ : l.takeWhile (fun c => c ≠ '\n') = a ∧
          l.dropWhile (fun c => c ≠ '\n') = c :: rest := by
        simpa [Prod.ext_iff] using hspan
      have hana : ∀ x ∈ a, x ≠ '\n' := by
        intro x hx
        rw [← hta] at hx
        have := List.mem_takeWhile_imp hx
        simpa using this
      have hlen : rest.length ≤ n := by
        have hl2 : l.takeWhile (fun c => c ≠ '\n') ++
            l.dropWhile (fun c => c ≠ '\n') = l :=
          List.takeWhile_append_dropWhile _ _
        rw [hta, htd] at hl2
        have := congrArg List.length hl2
        simp only [List.length_append, List.length_cons] at this
        omega
      have hrest := ih rest hlen
      have hnl : '\n' ∉ (a ++ ['\n']).dropLast := by
        rw [List.dropLast_concat]
        intro hmem
        exact hana '\n' hmem rfl
      cases hsr : splitLinesKE rest with
      | nil => exact ⟨hnl, by simp⟩
      | cons y ys =>
        rw [hsr] at hrest
        exact ⟨hnl, by simp, by simp [List.getLast?_concat], hrest⟩

/-- C10: for every input text, no line of any yielded block's `original`
strips to the fence `"```"` or the separator `"#====="`: such lines instead
terminate the original section or act as the separator, so they can never
end up inside parsed original content. -/
theorem C10_original_has_no_marker_lines (text : List Char) :
    ∀ b ∈ (parseDiffFile text).1, ∀ l ∈ splitLinesKE b.original,
      pyStrip l ≠ ("```".data) ∧ pyStrip l ≠ ("#=====".data) := by
  intro b hb
  have hgood := parse_blocks_good (splitLinesKE text)
    (splitLinesKE_validLines text.length text le_rfl) initParserSt
    (by intro x hx; exact absurd hx (List.not_mem_nil x))
    (by intro x hx; exact absurd hx (List.not_mem_nil x)) b hb
  exact hgood

theorem C10_original_has_no_marker_lines_witness :
    (⟨("f.txt".data), ("A\n".data), ("B\n".data)⟩ : PatchBlock) ∈
        (parseDiffFile (("#>>>>> f.txt\n```\nA\n#=====\nB\n```\n#<<<<< end\n").data)).1 ∧
      (("A\n".data) ∈ splitLinesKE (("A\n".data)) ∧
        (pyStrip (("A\n".data)) ≠ ("```".data) ∧
          pyStrip (("A\n".data)) ≠ ("#=====".data))) := by
  have h2 : splitLinesKE (("A\n".data)) = [("A\n".data)] := by
    have ha : ("A\n".data) = ("A".data) ++ '\n' :: [] := by decide
    rw [ha, splitLinesKE_cons ("A".data) [] (by decide), splitLinesKE_nil]
  have hsplit : splitLinesKE (("#>>>>> f.txt\n```\nA\n#=====\nB\n```\n#<<<<< end\n").data) =
      [("#>>>>> f.txt\n".data), ("```\n".data), ("A\n".data), ("#=====\n".data),
        ("B\n".data), ("```\n".data), ("#<<<<< end\n".data)] := by
    have hj : ("#>>>>> f.txt\n```\nA\n#=====\nB\n```\n#<<<<< end\n").data =
        joinLines [("#>>>>> f.txt\n".data), ("```\n".data), ("A\n".data),
          ("#=====\n".data), ("B\n".data), ("```\n".data), ("#<<<<< end\n".data)] := by
      decide
    rw [hj, splitLinesKE_join _ (by decide)]
  have hp : parseDiffFile (("#>>>>> f.txt\n```\nA\n#=====\nB\n```\n#<<<<< end\n").data) =
      ([⟨("f.txt".data), ("A\n".data), ("B\n".data)⟩], []) := by
    unfold parseDiffFile
    rw [hsplit]
    decide
  have hmem : (⟨("f.txt".data), ("A\n".data), ("B\n".data)⟩ : PatchBlock) ∈
      (parseDiffFile (("#>>>>> f.txt\n```\nA\n#=====\nB\n```\n#<<<<< end\n").data)).1 := by
    rw [hp]
    exact List.mem_singleton_self _
  refine ⟨hmem, ?_, ?_⟩
  · rw [h2]
    exact List.mem_singleton_self _
  · exact C10_original_has_no_marker_lines _ _ hmem (("A\n".data))
      (by show ("A\n".data) ∈ splitLinesKE (("A\n".data))
          rw [h2]
          exact List.mem_singleton_self _)

end DiffImport
